import Mathlib

/- Verification development for the libre-research backend: the response
normalizer (app/helpers/research.py, parse_json and conduct_research), the
document renderer (generate_research_pdf) and the research endpoints
(app/routers/research.py).  Python strings are modelled as lists of Unicode
code points, so that strings containing lone surrogates remain representable. -/

/-- A Python str: a list of Unicode code points. -/
abbrev PyStr := List Nat

/-- Embed a Lean string literal as a PyStr. -/
def pyStr (s : String) : PyStr := s.data.map Char.toNat

/-- Characters removed by Python str.strip (ASCII whitespace; the rarely seen
Unicode space categories are elided from the model). -/
def pyWs (c : Nat) : Bool :=
  c = 32 || c = 9 || c = 10 || c = 13 || c = 11 || c = 12

/-- Python str.strip(): drop leading and trailing whitespace. -/
def pyStrip (s : PyStr) : PyStr :=
  ((s.dropWhile pyWs).reverse.dropWhile pyWs).reverse

/-- JSON inter-token whitespace as accepted by Python json.loads
(exactly space, tab, newline, carriage return). -/
def jsonWs (c : Nat) : Bool :=
  c = 32 || c = 9 || c = 10 || c = 13

def skipJsonWs (s : PyStr) : PyStr := s.dropWhile jsonWs

/-- The values produced by Python json.loads: objects are association lists in
insertion order (duplicate keys collapsed by the parser itself). -/
inductive PyJson where
  | null : PyJson
  | bool (b : Bool) : PyJson
  | int (n : Int) : PyJson
  | str (s : PyStr) : PyJson
  | arr (items : List PyJson) : PyJson
  | obj (fields : List (PyStr × PyJson)) : PyJson

/-- Value of an ASCII hex digit. -/
def hexVal (c : Nat) : Option Nat :=
  if 48 ≤ c ∧ c ≤ 57 then some (c - 48)
  else if 97 ≤ c ∧ c ≤ 102 then some (c - 87)
  else if 65 ≤ c ∧ c ≤ 70 then some (c - 55)
  else none

/-- The single-character JSON escapes accepted after a backslash. -/
def escMap (c : Nat) : Option Nat :=
  if c = 34 then some 34
  else if c = 92 then some 92
  else if c = 47 then some 47
  else if c = 98 then some 8
  else if c = 102 then some 12
  else if c = 110 then some 10
  else if c = 114 then some 13
  else if c = 116 then some 9
  else none

/-- Four hex digits of a \uXXXX escape. -/
def parseUnicodeEsc : PyStr → Option (Nat × PyStr)
  | h1 :: h2 :: h3 :: h4 :: rest =>
    match hexVal h1, hexVal h2, hexVal h3, hexVal h4 with
    | some a, some b, some c, some d =>
      some ((((a * 16 + b) * 16 + c) * 16 + d), rest)
    | _, _, _, _ => none
  | _ => none

/-- Modelled from the spec: the string scanner of Python json.loads (strict
mode), consuming the body of a string literal after its opening quote.  Raw
control characters are rejected; \uXXXX yields the corresponding code point
(the CPython combination of adjacent surrogate escapes is elided from the
model).  Fuelled: callers pass the input length plus one. -/
def parseStringBody (fuel : Nat) (s : PyStr) : Option (PyStr × PyStr) :=
  match fuel, s with
  | 0, _ => none
  | _, [] => none
  | fuel + 1, c :: rest =>
    if c = 34 then some ([], rest)
    else if c = 92 then
      if rest.headD 0 = 117 then
        (parseUnicodeEsc rest.tail).bind (fun u =>
          (parseStringBody fuel u.2).map (fun p => (u.1 :: p.1, p.2)))
      else
        (escMap (rest.headD 0)).bind (fun c' =>
          (parseStringBody fuel rest.tail).map (fun p => (c' :: p.1, p.2)))
    else if c < 32 then none
    else (parseStringBody fuel rest).map (fun p => (c :: p.1, p.2))

def isDigit (c : Nat) : Bool := 48 ≤ c && c ≤ 57

/-- Accumulate a maximal run of decimal digits. -/
def digitsRun (acc : Nat) : PyStr → Nat × PyStr
  | [] => (acc, [])
  | c :: rest =>
    if isDigit c then digitsRun (acc * 10 + (c - 48)) rest else (acc, c :: rest)

/-- Modelled from the spec: the integer part of the JSON number grammar
(0, or a nonzero digit followed by digits); number literals with a
fractional or exponent part are outside the model, which confines the
formalization to integer-valued JSON numbers. -/
def parseJsonNat : PyStr → Option (Nat × PyStr)
  | [] => none
  | c :: rest =>
    if c = 48 then some (0, rest)
    else if isDigit c then some (digitsRun (c - 48) rest)
    else none

/-- Assignment into a Python dict: replace in place or append. -/
def objInsert (fields : List (PyStr × PyJson)) (k : PyStr) (v : PyJson) :
    List (PyStr × PyJson) :=
  match fields with
  | [] => [(k, v)]
  | (k0, v0) :: rest =>
    if k0 = k then (k0, v) :: rest else (k0, v0) :: objInsert rest k v

/-- Build a Python dict from parsed key/value pairs in order (later duplicate
keys overwrite in place, as dict assignment does). -/
def objFromPairs (pairs : List (PyStr × PyJson)) : List (PyStr × PyJson) :=
  pairs.foldl (fun acc p => objInsert acc p.1 p.2) []

mutual

/-- Modelled from the spec: the value scanner of Python json.loads, fuelled.
The caller has already skipped leading whitespace. -/
def parseValue : Nat → PyStr → Option (PyJson × PyStr)
  | 0, _ => none
  | fuel + 1, s =>
    match s with
    | [] => none
    | c :: rest =>
      if c = 123 then parseMembersStart fuel (skipJsonWs rest)
      else if c = 91 then parseElemsStart fuel (skipJsonWs rest)
      else if c = 34 then
        (parseStringBody (rest.length + 1) rest).map (fun p => (PyJson.str p.1, p.2))
      else if [116, 114, 117, 101].isPrefixOf (c :: rest) then
        some (PyJson.bool true, rest.drop 3)
      else if [102, 97, 108, 115, 101].isPrefixOf (c :: rest) then
        some (PyJson.bool false, rest.drop 4)
      else if [110, 117, 108, 108].isPrefixOf (c :: rest) then
        some (PyJson.null, rest.drop 3)
      else if c = 45 then
        (parseJsonNat rest).map (fun p => (PyJson.int (-(p.1 : Int)), p.2))
      else (parseJsonNat (c :: rest)).map (fun p => (PyJson.int (p.1 : Int), p.2))

/-- After an opening bracket (whitespace skipped): an empty array or the
first element followed by the element loop. -/
def parseElemsStart : Nat → PyStr → Option (PyJson × PyStr)
  | 0, _ => none
  | fuel + 1, s =>
    match s with
    | [] => none
    | c :: rest =>
      if c = 93 then some (PyJson.arr [], rest)
      else
        (parseValue fuel (c :: rest)).bind (fun p =>
          (parseElemsTail fuel p.2).map (fun q => (PyJson.arr (p.1 :: q.1), q.2)))

/-- After an array element: a comma and a further element, or the closing
bracket. -/
def parseElemsTail : Nat → PyStr → Option (List PyJson × PyStr)
  | 0, _ => none
  | fuel + 1, s =>
    match skipJsonWs s with
    | [] => none
    | c :: rest =>
      if c = 93 then some ([], rest)
      else if c = 44 then
        (parseValue fuel (skipJsonWs rest)).bind (fun p =>
          (parseElemsTail fuel p.2).map (fun q => (p.1 :: q.1, q.2)))
      else none

/-- After an opening brace (whitespace skipped): an empty object or the first
key string followed by the member loop. -/
def parseMembersStart : Nat → PyStr → Option (PyJson × PyStr)
  | 0, _ => none
  | fuel + 1, s =>
    match s with
    | [] => none
    | c :: rest =>
      if c = 125 then some (PyJson.obj [], rest)
      else if c = 34 then
        (parsePair fuel rest).bind (fun p =>
          (parseMembersTail fuel p.2).map
            (fun q => (PyJson.obj (objFromPairs (p.1 :: q.1)), q.2)))
      else none

/-- A key (after its opening quote), a colon and a value. -/
def parsePair : Nat → PyStr → Option ((PyStr × PyJson) × PyStr)
  | 0, _ => none
  | fuel + 1, s =>
    (parseStringBody (s.length + 1) s).bind (fun k =>
      match skipJsonWs k.2 with
      | [] => none
      | c :: rest =>
        if c = 58 then
          (parseValue fuel (skipJsonWs rest)).map (fun v => ((k.1, v.1), v.2))
        else none)

/-- After an object member: a comma and a further member, or the closing
brace. -/
def parseMembersTail : Nat → PyStr → Option (List (PyStr × PyJson) × PyStr)
  | 0, _ => none
  | fuel + 1, s =>
    match skipJsonWs s with
    | [] => none
    | c :: rest =>
      if c = 125 then some ([], rest)
      else if c = 44 then
        match skipJsonWs rest with
        | [] => none
        | c2 :: rest2 =>
          if c2 = 34 then
            (parsePair fuel rest2).bind (fun p =>
              (parseMembersTail fuel p.2).map (fun q => (p.1 :: q.1, q.2)))
          else none
      else none

end

/-- Modelled from the spec: Python json.loads — skip leading whitespace,
scan one value, require only whitespace afterwards. -/
def loads (s : PyStr) : Option PyJson :=
  match parseValue (s.length + 1) (skipJsonWs s) with
  | some (v, rest) => if skipJsonWs rest = [] then some v else none
  | none => none

/-- Does the escape-regex negative lookahead fail here, i.e. is the backslash
followed by a recognized JSON escape continuation? Mirrors the lookahead
(?!["\\/bfnrt]|u[0-9a-fA-F]{4}) of the repair regex in parse_json. -/
def escOk : PyStr → Bool
  | 34 :: _ => true
  | 92 :: _ => true
  | 47 :: _ => true
  | 98 :: _ => true
  | 102 :: _ => true
  | 110 :: _ => true
  | 114 :: _ => true
  | 116 :: _ => true
  | 117 :: h1 :: h2 :: h3 :: h4 :: _ =>
    (hexVal h1).isSome && (hexVal h2).isSome && (hexVal h3).isSome && (hexVal h4).isSome
  | _ => false

/-- The escape-repair substitution of parse_json: double every backslash that
is not followed by a recognized JSON escape
(re.sub of backslash-with-negative-lookahead by a doubled backslash). -/
def fixEscapes : PyStr → PyStr
  | [] => []
  | c :: rest =>
    if c = 92 && !(escOk rest) then 92 :: 92 :: fixEscapes rest
    else c :: fixEscapes rest

/-- Python str.find for a single character: index of first occurrence. -/
def firstIdxOf (target : Nat) : PyStr → Option Nat
  | [] => none
  | c :: rest =>
    if c = target then some 0 else (firstIdxOf target rest).map (· + 1)

/-- Python str.rfind for a single character: index of last occurrence. -/
def lastIdxOf (target : Nat) (s : PyStr) : Option Nat :=
  (firstIdxOf target s.reverse).map (fun i => s.length - 1 - i)

/-- The slice text[start : stop + 1]. -/
def sliceIncl (s : PyStr) (start stop : Nat) : PyStr :=
  (s.drop start).take (stop + 1 - start)

def isTripleHead (s : PyStr) : Bool := [96, 96, 96].isPrefixOf s

/-- Index of the first occurrence of a triple backtick. -/
def firstTripleIdx : PyStr → Option Nat
  | [] => none
  | c :: rest =>
    if isTripleHead (c :: rest) then some 0 else (firstTripleIdx rest).map (· + 1)

/-- First position from which the fenced-block regex of parse_json can match:
a triple backtick with another triple backtick occurring at least three
characters later. -/
def findOpenFence : PyStr → Option Nat
  | [] => none
  | c :: rest =>
    if isTripleHead (c :: rest) && (firstTripleIdx (rest.drop 2)).isSome then some 0
    else (findOpenFence rest).map (· + 1)

/-- The stripped interior of the first fenced code block, as matched by
re.search of a triple backtick, an optional json tag, lazily captured
interior, and a closing triple backtick, followed by .group(1).strip().
The lazy capture ends at the first subsequent triple backtick, and the
optional json tag is consumed exactly when literally present; the strip
then removes the whitespace the surrounding markers would have eaten. -/
def codeBlockInterior (text : PyStr) : Option PyStr :=
  (findOpenFence text).bind (fun i =>
    let after := text.drop (i + 3)
    let after2 := if [106, 115, 111, 110].isPrefixOf after then after.drop 4 else after
    (firstTripleIdx after2).map (fun m => pyStrip (after2.take m)))

/-- One brace-extraction attempt of parse_json: slice from the first opening
brace to the last closing brace (when the latter follows the former) and
parse, retrying after escape repair if asked. -/
def braceAttempt (repair : Bool) (t : PyStr) : Option PyJson :=
  match firstIdxOf 123 t, lastIdxOf 125 t with
  | some s, some e =>
    if s < e then
      let js := sliceIncl t s e
      match loads js with
      | some v => some v
      | none => if repair then loads (fixEscapes js) else none
    else none
  | _, _ => none

/-- parse_json from app/helpers/research.py: the ordered cascade of recovery
strategies — direct parse of the stripped text; fenced-block extraction,
retried after escape repair; brace-span extraction, retried after escape
repair; and a final brace-span parse of the globally escape-repaired text. -/
def parse_json (text : PyStr) : Bool × Option PyJson :=
  match loads (pyStrip text) with
  | some v => (true, some v)
  | none =>
    match
      (match codeBlockInterior text with
       | some js =>
         (match loads js with
          | some v => some v
          | none => loads (fixEscapes js))
       | none => none) with
    | some v => (true, some v)
    | none =>
      match braceAttempt true text with
      | some v => (true, some v)
      | none =>
        match braceAttempt false (fixEscapes text) with
        | some v => (true, some v)
        | none => (false, none)

/-- The fallback structure substituted by conduct_research when parse_json
fails: an error summary, an Error section, a Raw Response section holding
the first 1000 characters of the raw response (with a truncation marker when
longer), and no sources. -/
def fallbackRecord (full_response : PyStr) : PyJson :=
  PyJson.obj
    [(pyStr "summary", PyJson.str (pyStr "Error: Could not parse research results")),
     (pyStr "sections", PyJson.arr
       [PyJson.obj
         [(pyStr "title", PyJson.str (pyStr "Error")),
          (pyStr "content", PyJson.str (pyStr "There was an error processing the research results. Please try again."))],
        PyJson.obj
         [(pyStr "title", PyJson.str (pyStr "Raw Response")),
          (pyStr "content", PyJson.str
            (full_response.take 1000 ++
              (if 1000 < full_response.length then pyStr "..." else [])))]]),
     (pyStr "sources", PyJson.arr [])]

/-- The result value conduct_research goes on to persist: the parse result on
success, the fallback structure otherwise. -/
def normalizeResponse (full_response : PyStr) : PyJson :=
  match parse_json full_response with
  | (true, some v) => v
  | _ => fallbackRecord full_response

/-- Python dict lookup on an association list. -/
def lookupKey (fields : List (PyStr × PyJson)) (k : PyStr) : Option PyJson :=
  match fields with
  | [] => none
  | (k0, v0) :: rest => if k0 = k then some v0 else lookupKey rest k

/-- Python dict.get with a default. -/
def objGet (fields : List (PyStr × PyJson)) (k : PyStr) (default : PyJson) : PyJson :=
  match lookupKey fields k with
  | some v => v
  | none => default

/-- The summary, sections and sources fields of the report object built by
conduct_research: result.get with defaults of an empty string and empty
lists.  On a non-dict result the attribute access raises, which the outer
handler turns into a failed task, hence the none. -/
def reportFields (result : PyJson) : Option (PyJson × PyJson × PyJson) :=
  match result with
  | PyJson.obj kvs =>
    some (objGet kvs (pyStr "summary") (PyJson.str []),
          objGet kvs (pyStr "sections") (PyJson.arr []),
          objGet kvs (pyStr "sources") (PyJson.arr []))
  | _ => none

/-- Lower-case ASCII hex digit for a value below 16. -/
def hexDig (d : Nat) : Nat := if d < 10 then 48 + d else 87 + d

/-- Modelled from the spec: the canonical serialization of one string
character — escape the quote and the backslash, write control characters as
four-digit unicode escapes, and emit everything else verbatim. -/
def escChar (c : Nat) : PyStr :=
  if c = 34 then [92, 34]
  else if c = 92 then [92, 92]
  else if c < 32 then [92, 117, 48, 48, hexDig (c / 16), hexDig (c % 16)]
  else [c]

def escBody (s : PyStr) : PyStr := (s.map escChar).flatten

/-- Decimal digits of a natural number, most significant first (fuelled so
that the definition is structural and evaluable by the kernel). -/
def natDigsAux : Nat → Nat → PyStr
  | 0, _ => []
  | fuel + 1, n =>
    if n < 10 then [48 + n] else natDigsAux fuel (n / 10) ++ [48 + n % 10]

def dumpNatDigs (n : Nat) : PyStr := natDigsAux (n + 1) n

def dumpInt (n : Int) : PyStr :=
  if n < 0 then 45 :: dumpNatDigs n.natAbs else dumpNatDigs n.natAbs

mutual

/-- Modelled from the spec: the canonical JSON serialization of a record
(compact separators; strings escaped as in escChar). -/
def dumpVal : PyJson → PyStr
  | PyJson.null => [110, 117, 108, 108]
  | PyJson.bool true => [116, 114, 117, 101]
  | PyJson.bool false => [102, 97, 108, 115, 101]
  | PyJson.int n => dumpInt n
  | PyJson.str s => 34 :: escBody s ++ [34]
  | PyJson.arr xs => 91 :: dumpElemsStr xs ++ [93]
  | PyJson.obj kvs => 123 :: dumpFieldsStr kvs ++ [125]

def dumpElemsStr : List PyJson → PyStr
  | [] => []
  | x :: t => dumpVal x ++ dumpMoreElems t

def dumpMoreElems : List PyJson → PyStr
  | [] => []
  | y :: t => 44 :: (dumpVal y ++ dumpMoreElems t)

def dumpFieldsStr : List (PyStr × PyJson) → PyStr
  | [] => []
  | p :: t => (34 :: escBody p.1 ++ 34 :: 58 :: dumpVal p.2) ++ dumpMoreFields t

def dumpMoreFields : List (PyStr × PyJson) → PyStr
  | [] => []
  | p :: t => 44 :: ((34 :: escBody p.1 ++ 34 :: 58 :: dumpVal p.2) ++ dumpMoreFields t)

end

def dumps (v : PyJson) : PyStr := dumpVal v

/-- No two fields share a key. -/
def nodupKeys : List (PyStr × PyJson) → Bool
  | [] => true
  | (k, _) :: rest => rest.all (fun q => !(q.1 = k : Bool)) && nodupKeys rest

mutual

/-- Well-formedness of a parsed value: every object has pairwise distinct
keys.  Every value produced by the parser satisfies this. -/
def wfJ : PyJson → Bool
  | PyJson.null => true
  | PyJson.bool _ => true
  | PyJson.int _ => true
  | PyJson.str _ => true
  | PyJson.arr xs => wfL xs
  | PyJson.obj kvs => nodupKeys kvs && wfF kvs

def wfL : List PyJson → Bool
  | [] => true
  | x :: t => wfJ x && wfL t

def wfF : List (PyStr × PyJson) → Bool
  | [] => true
  | p :: t => wfJ p.2 && wfF t

end

/-- Is the first character a decimal digit? -/
def digitHeaded (r : PyStr) : Bool := isDigit (r.headD 0)

theorem escBody_nil : escBody [] = [] := rfl

theorem escBody_cons (c : Nat) (t : PyStr) :
    escBody (c :: t) = escChar c ++ escBody t := by
  simp [escBody]

theorem hexVal_hexDig (d : Nat) (h : d < 16) : hexVal (hexDig d) = some d := by
  unfold hexVal hexDig
  by_cases h10 : d < 10
  · rw [if_pos h10, if_pos (by omega : 48 ≤ 48 + d ∧ 48 + d ≤ 57)]
    congr 1
    omega
  · rw [if_neg h10]
    rw [if_neg (by omega : ¬(48 ≤ 87 + d ∧ 87 + d ≤ 57))]
    rw [if_pos (by omega : 97 ≤ 87 + d ∧ 87 + d ≤ 102)]
    congr 1
    omega

theorem escChar_len (c : Nat) : 1 ≤ (escChar c).length := by
  unfold escChar
  split
  · simp
  · split
    · simp
    · split <;> simp

theorem escBody_len (s : PyStr) : s.length ≤ (escBody s).length := by
  induction s with
  | nil => simp [escBody_nil]
  | cons c t ih =>
    rw [escBody_cons]
    have := escChar_len c
    simp only [List.length_append, List.length_cons]
    omega

theorem parseStringBody_esc (s : PyStr) : ∀ f r, s.length < f →
    parseStringBody f (escBody s ++ (34 :: r)) = some (s, r) := by
  induction s with
  | nil =>
    intro f r hf
    obtain ⟨g, rfl⟩ : ∃ g, f = g + 1 := ⟨f - 1, by omega⟩
    rfl
  | cons c t ih =>
    intro f r hf
    obtain ⟨g, rfl⟩ : ∃ g, f = g + 1 := ⟨f - 1, by omega⟩
    have hg : t.length < g := by
      simp only [List.length_cons] at hf
      omega
    rw [escBody_cons, List.append_assoc]
    by_cases h34 : c = 34
    · subst h34
      simp [escChar, parseStringBody, escMap, ih g r hg]
    · by_cases h92 : c = 92
      · subst h92
        simp [escChar, parseStringBody, escMap, ih g r hg]
      · by_cases hctl : c < 32
        · have hd1 : hexVal (hexDig (c / 16)) = some (c / 16) :=
            hexVal_hexDig _ (by omega)
          have hd2 : hexVal (hexDig (c % 16)) = some (c % 16) :=
            hexVal_hexDig _ (by omega)
          have hval0 : hexVal 48 = some 0 := by decide
          have harith : c / 16 * 16 + c % 16 = c := by omega
          simp [escChar, h34, h92, hctl, parseStringBody, parseUnicodeEsc,
            hval0, hd1, hd2, ih g r hg, harith]
        · simp [escChar, h34, h92, hctl, parseStringBody, ih g r hg]

theorem digitsRun_stop (acc : Nat) (r : PyStr) (h : digitHeaded r = false) :
    digitsRun acc r = (acc, r) := by
  cases r with
  | nil => rfl
  | cons c rest =>
    simp [digitHeaded, List.headD] at h
    simp [digitsRun, h]

theorem natDigsAux_spec (fuel : Nat) : ∀ n, n < fuel →
    ∃ c t, natDigsAux fuel n = c :: t ∧ isDigit c = true ∧ (1 ≤ n → c ≠ 48) := by
  induction fuel with
  | zero => intro n h; omega
  | succ f ih =>
    intro n h
    by_cases h10 : n < 10
    · refine ⟨48 + n, [], ?_, ?_, ?_⟩
      · simp [natDigsAux, h10]
      · simp only [isDigit, Bool.and_eq_true, decide_eq_true_eq]
        omega
      · intro h1; omega
    · have hdiv : n / 10 < f := by
        have := Nat.div_lt_self (show 0 < n by omega) (show 1 < 10 by omega)
        omega
      obtain ⟨c, t, heq, hdig, hne⟩ := ih (n / 10) hdiv
      refine ⟨c, t ++ [48 + n % 10], ?_, hdig, ?_⟩
      · simp [natDigsAux, h10, heq]
      · intro _
        exact hne (by omega)

theorem digitsRun_natDigs (fuel : Nat) : ∀ n, n < fuel → ∀ acc r,
    digitsRun acc (natDigsAux fuel n ++ r) =
      digitsRun (acc * 10 ^ (natDigsAux fuel n).length + n) r := by
  induction fuel with
  | zero => intro n h; omega
  | succ f ih =>
    intro n h acc r
    by_cases h10 : n < 10
    · have : natDigsAux (f + 1) n = [48 + n] := by simp [natDigsAux, h10]
      rw [this]
      have hdig : isDigit (48 + n) = true := by
        simp only [isDigit, Bool.and_eq_true, decide_eq_true_eq]
        omega
      have h48 : 48 + n - 48 = n := by omega
      simp [digitsRun, hdig, h48, pow_one]
    · have hdiv : n / 10 < f := by
        have := Nat.div_lt_self (show 0 < n by omega) (show 1 < 10 by omega)
        omega
      have hstep : natDigsAux (f + 1) n = natDigsAux f (n / 10) ++ [48 + n % 10] := by
        simp [natDigsAux, h10]
      rw [hstep, List.append_assoc, List.singleton_append]
      rw [ih (n / 10) hdiv acc ((48 + n % 10) :: r)]
      have hdig : isDigit (48 + n % 10) = true := by
        simp only [isDigit, Bool.and_eq_true, decide_eq_true_eq]
        omega
      simp only [List.cons_append, List.nil_append, digitsRun, hdig, if_pos]
      have hlen : (natDigsAux f (n / 10) ++ [48 + n % 10]).length =
          (natDigsAux f (n / 10)).length + 1 := by simp
      rw [hlen]
      congr 1
      have hmod : 10 * (n / 10) + n % 10 = n := Nat.div_add_mod n 10
      have h48 : 48 + n % 10 - 48 = n % 10 := by omega
      rw [h48]
      set k := (natDigsAux f (n / 10)).length with hk
      calc (acc * 10 ^ k + n / 10) * 10 + n % 10
          = acc * 10 ^ (k + 1) + (10 * (n / 10) + n % 10) := by ring
        _ = acc * 10 ^ (k + 1) + n := by rw [hmod]

theorem parseJsonNat_dump (n : Nat) (r : PyStr) (h : digitHeaded r = false) :
    parseJsonNat (dumpNatDigs n ++ r) = some (n, r) := by
  by_cases h0 : n = 0
  · subst h0
    simp [dumpNatDigs, natDigsAux, parseJsonNat]
  · obtain ⟨c, t, heq, hdig, hne⟩ := natDigsAux_spec (n + 1) n (by omega)
    have hne48 : c ≠ 48 := hne (by omega)
    unfold dumpNatDigs
    rw [heq]
    simp only [List.cons_append, parseJsonNat]
    rw [if_neg hne48, if_pos hdig]
    have hmain := digitsRun_natDigs (n + 1) n (by omega) 0 r
    rw [heq] at hmain
    have hstop := digitsRun_stop (0 * 10 ^ ((c :: t) : PyStr).length + n) r h
    simp only [List.cons_append, digitsRun, hdig, if_pos] at hmain
    rw [hstop] at hmain
    simp only [Nat.zero_mul, Nat.zero_add, List.append_eq] at hmain ⊢
    rw [hmain]

theorem dumpNatDigs_head (n : Nat) :
    ∃ c t, dumpNatDigs n = c :: t ∧ isDigit c = true := by
  obtain ⟨c, t, heq, hdig, _⟩ := natDigsAux_spec (n + 1) n (by omega)
  exact ⟨c, t, heq, hdig⟩

theorem isPrefixOf_cons_ne (a c : Nat) (l t : List Nat) (h : a ≠ c) :
    (a :: l).isPrefixOf (c :: t) = false := by
  simp [List.isPrefixOf, h]

/-- The first character of a serialized value is never whitespace nor one of
the structural delimiters that the loops dispatch on. -/
theorem dumpVal_head (v : PyJson) : ∃ c t, dumpVal v = c :: t ∧ jsonWs c = false ∧
    c ≠ 93 ∧ c ≠ 44 ∧ c ≠ 125 ∧ c ≠ 58 := by
  cases v with
  | null => exact ⟨110, _, rfl, by decide, by decide, by decide, by decide, by decide⟩
  | bool b =>
    cases b with
    | true => exact ⟨116, _, rfl, by decide, by decide, by decide, by decide, by decide⟩
    | false => exact ⟨102, _, rfl, by decide, by decide, by decide, by decide, by decide⟩
  | str s => exact ⟨34, _, rfl, by decide, by decide, by decide, by decide, by decide⟩
  | arr xs => exact ⟨91, _, rfl, by decide, by decide, by decide, by decide, by decide⟩
  | obj kvs => exact ⟨123, _, rfl, by decide, by decide, by decide, by decide, by decide⟩
  | int n =>
    show ∃ c t, dumpInt n = c :: t ∧ _
    unfold dumpInt
    by_cases hn : n < 0
    · rw [if_pos hn]
      exact ⟨45, _, rfl, by decide, by decide, by decide, by decide, by decide⟩
    · rw [if_neg hn]
      obtain ⟨c, t, heq, hdig⟩ := dumpNatDigs_head n.natAbs
      rw [heq]
      simp only [isDigit, Bool.and_eq_true, decide_eq_true_eq] at hdig
      refine ⟨c, t, rfl, ?_, by omega, by omega, by omega, by omega⟩
      simp only [jsonWs, Bool.or_eq_false_iff, decide_eq_false_iff_not]
      omega

theorem skipJsonWs_dump (v : PyJson) (r : PyStr) :
    skipJsonWs (dumpVal v ++ r) = dumpVal v ++ r := by
  obtain ⟨c, t, heq, hws, _⟩ := dumpVal_head v
  rw [heq]
  simp [skipJsonWs, List.dropWhile_cons, hws]

theorem objInsert_notmem (acc : List (PyStr × PyJson)) (k : PyStr) (v : PyJson)
    (h : ∀ p ∈ acc, p.1 ≠ k) : objInsert acc k v = acc ++ [(k, v)] := by
  induction acc with
  | nil => rfl
  | cons p t ih =>
    obtain ⟨k0, v0⟩ := p
    have hk0 : k0 ≠ k := h (k0, v0) (by simp)
    simp only [objInsert, if_neg hk0, List.cons_append]
    rw [ih (fun q hq => h q (by simp [hq]))]

theorem foldl_objInsert (kvs : List (PyStr × PyJson)) : ∀ acc,
    (∀ p ∈ acc, ∀ q ∈ kvs, p.1 ≠ q.1) → nodupKeys kvs = true →
    kvs.foldl (fun a p => objInsert a p.1 p.2) acc = acc ++ kvs := by
  induction kvs with
  | nil => intro acc _ _; simp
  | cons p t ih =>
    intro acc hdisj hnd
    obtain ⟨k, v⟩ := p
    simp only [List.foldl_cons]
    rw [objInsert_notmem acc k v (fun q hq => hdisj q hq (k, v) (by simp))]
    have hnd' : nodupKeys t = true := by
      simp only [nodupKeys, Bool.and_eq_true] at hnd
      exact hnd.2
    have hall : ∀ q ∈ t, q.1 ≠ k := by
      simp only [nodupKeys, Bool.and_eq_true, List.all_eq_true] at hnd
      intro q hq
      have := hnd.1 q hq
      simpa using this
    rw [ih (acc ++ [(k, v)]) ?_ hnd']
    · simp
    · intro p' hp' q hq
      rcases List.mem_append.mp hp' with hp1 | hp2
      · exact hdisj p' hp1 q (by simp [hq])
      · have : p' = (k, v) := by simpa using hp2
        subst this
        exact fun hcontra => (hall q hq) hcontra.symm

theorem objFromPairs_nodup (kvs : List (PyStr × PyJson)) (h : nodupKeys kvs = true) :
    objFromPairs kvs = kvs := by
  unfold objFromPairs
  rw [foldl_objInsert kvs [] (by intro p hp; simp at hp) h]
  simp

theorem moreElems_head (t : List PyJson) (r : PyStr) :
    digitHeaded (dumpMoreElems t ++ (93 :: r)) = false := by
  cases t <;> rfl

theorem moreFields_head (t : List (PyStr × PyJson)) (r : PyStr) :
    digitHeaded (dumpMoreFields t ++ (125 :: r)) = false := by
  cases t <;> rfl

theorem skipJsonWs_elems (xs : List PyJson) (r : PyStr) :
    skipJsonWs (dumpElemsStr xs ++ (93 :: r)) = dumpElemsStr xs ++ (93 :: r) := by
  cases xs with
  | nil => rfl
  | cons x t =>
    obtain ⟨c, u, heq, hws, _⟩ := dumpVal_head x
    simp [dumpElemsStr, heq, skipJsonWs, List.dropWhile_cons, hws]

theorem skipJsonWs_fields (kvs : List (PyStr × PyJson)) (r : PyStr) :
    skipJsonWs (dumpFieldsStr kvs ++ (125 :: r)) = dumpFieldsStr kvs ++ (125 :: r) := by
  cases kvs with
  | nil => rfl
  | cons p t => rfl

theorem dumpObj_cons_len (k : PyStr) (vv : PyJson) (t : List (PyStr × PyJson)) :
    (dumpVal (PyJson.obj ((k, vv) :: t))).length =
      (escBody k).length + (dumpVal vv).length + (dumpMoreFields t).length + 5 := by
  simp only [dumpVal, dumpFieldsStr, List.length_cons, List.length_append,
    List.length_singleton, List.length_nil]
  omega

theorem dumpMoreFields_cons_len (k : PyStr) (vv : PyJson) (t : List (PyStr × PyJson)) :
    (dumpMoreFields ((k, vv) :: t)).length =
      (escBody k).length + (dumpVal vv).length + (dumpMoreFields t).length + 4 := by
  simp only [dumpMoreFields, List.length_cons, List.length_append,
    List.length_singleton, List.length_nil]
  omega

mutual

/-- Parsing the canonical serialization of a well-formed value recovers the
value, provided the remainder does not begin with a digit. -/
theorem rtV (v : PyJson) : ∀ (f : Nat) (r : PyStr), wfJ v = true →
    digitHeaded r = false → (dumpVal v).length < f →
    parseValue f (dumpVal v ++ r) = some (v, r) := by
  intro f r hwf hr hf
  obtain ⟨g, rfl⟩ : ∃ g, f = g + 1 := ⟨f - 1, by omega⟩
  cases v with
  | null => simp [dumpVal, parseValue, List.isPrefixOf]
  | bool b => cases b <;> simp [dumpVal, parseValue, List.isPrefixOf]
  | str s =>
    have hlen : s.length < (escBody s ++ (34 :: r)).length + 1 := by
      have := escBody_len s
      simp only [List.length_append, List.length_cons]
      omega
    have hps := parseStringBody_esc s ((escBody s ++ (34 :: r)).length + 1) r hlen
    simp only [List.length_append, List.length_cons] at hps
    simp [dumpVal, parseValue, List.append_assoc, hps]
  | int n =>
    show parseValue (g + 1) (dumpInt n ++ r) = some (PyJson.int n, r)
    unfold dumpInt
    by_cases hn : n < 0
    · rw [if_pos hn]
      have hpn := parseJsonNat_dump n.natAbs r hr
      have hcast : -(|n|) = n := by
        rw [abs_of_nonpos (show n ≤ 0 by omega)]
        omega
      simp [parseValue, List.cons_append, List.isPrefixOf, hpn, hcast]
    · rw [if_neg hn]
      obtain ⟨c, t, heq, hdig⟩ := dumpNatDigs_head n.natAbs
      have hb : 48 ≤ c ∧ c ≤ 57 := by
        simpa only [isDigit, Bool.and_eq_true, decide_eq_true_eq] using hdig
      have hpn := parseJsonNat_dump n.natAbs r hr
      rw [heq] at hpn ⊢
      have h1 : ¬c = 123 := by omega
      have h2 : ¬c = 91 := by omega
      have h3 : ¬c = 34 := by omega
      have h4 := isPrefixOf_cons_ne 116 c [114, 117, 101] (t ++ r) (by omega)
      have h5 := isPrefixOf_cons_ne 102 c [97, 108, 115, 101] (t ++ r) (by omega)
      have h6 := isPrefixOf_cons_ne 110 c [117, 108, 108] (t ++ r) (by omega)
      have h7 : ¬c = 45 := by omega
      have hcast : |n| = n := abs_of_nonneg (by omega)
      simp only [List.cons_append] at hpn ⊢
      simp [parseValue, h1, h2, h3, h4, h5, h6, h7, hpn, hcast]
  | arr xs =>
    have hbound : (dumpElemsStr xs).length + 1 < g := by
      simp only [dumpVal, List.length_cons, List.length_append,
        List.length_singleton, List.length_nil] at hf
      omega
    have hE := rtElems xs g r hwf hbound
    have hskip := skipJsonWs_elems xs r
    show parseValue (g + 1) ((91 :: dumpElemsStr xs ++ [93]) ++ r) = _
    simp only [List.cons_append, List.append_assoc, List.singleton_append]
    simp [parseValue, hskip, hE]
  | obj kvs =>
    have hwf2 : nodupKeys kvs = true ∧ wfF kvs = true := by
      simpa only [wfJ, Bool.and_eq_true] using hwf
    show parseValue (g + 1) ((123 :: dumpFieldsStr kvs ++ [125]) ++ r) = _
    have hskip := skipJsonWs_fields kvs r
    cases kvs with
    | nil =>
      obtain ⟨g1, rfl⟩ : ∃ g1, g = g1 + 1 := ⟨g - 1, by
        simp only [dumpVal, dumpFieldsStr, List.length_cons, List.length_append,
          List.length_singleton, List.length_nil] at hf
        omega⟩
      simp [parseValue, parseMembersStart, dumpFieldsStr, skipJsonWs,
        List.dropWhile_cons, jsonWs]
    | cons p t =>
      obtain ⟨k, vv⟩ := p
      rw [dumpObj_cons_len k vv t] at hf
      obtain ⟨g1, rfl⟩ : ∃ g1, g = g1 + 1 := ⟨g - 1, by omega⟩
      obtain ⟨g2, rfl⟩ : ∃ g2, g1 = g2 + 1 := ⟨g1 - 1, by omega⟩
      -- the key string
      have hkey : parseStringBody
          ((escBody k ++ (34 :: (58 :: (dumpVal vv ++ (dumpMoreFields t ++ (125 :: r)))))).length + 1)
          (escBody k ++ (34 :: (58 :: (dumpVal vv ++ (dumpMoreFields t ++ (125 :: r)))))) =
          some (k, 58 :: (dumpVal vv ++ (dumpMoreFields t ++ (125 :: r)))) := by
        apply parseStringBody_esc
        have := escBody_len k
        simp only [List.length_append, List.length_cons]
        omega
      -- the member value
      have hwfs : wfJ vv = true ∧ wfF t = true := by
        simpa only [wfF, Bool.and_eq_true] using hwf2.2
      have hwfv : wfJ vv = true := hwfs.1
      have hV := rtV vv g2 (dumpMoreFields t ++ (125 :: r)) hwfv
        (moreFields_head t r) (by omega)
      -- the remaining members
      have hwft : wfF t = true := hwfs.2
      have hT := rtPairs t (g2 + 1) r hwft (by omega)
      have hobj : objFromPairs ((k, vv) :: t) = (k, vv) :: t :=
        objFromPairs_nodup _ hwf2.1
      have hsv := skipJsonWs_dump vv (dumpMoreFields t ++ (125 :: r))
      simp only [List.length_append, List.length_cons] at hkey
      simp only [skipJsonWs] at hsv hskip
      simp only [dumpFieldsStr, List.cons_append, List.append_assoc,
        List.singleton_append] at hskip ⊢
      simp [parseValue, hskip, parseMembersStart, parsePair, hkey, skipJsonWs,
        List.dropWhile_cons, jsonWs, hsv, hV, hT, hobj]

/-- Array bodies: the serialized element list followed by the closing bracket
parses back to the elements. -/
theorem rtElems (xs : List PyJson) : ∀ (f : Nat) (r : PyStr), wfL xs = true →
    (dumpElemsStr xs).length + 1 < f →
    parseElemsStart f (dumpElemsStr xs ++ (93 :: r)) = some (PyJson.arr xs, r) := by
  intro f r hwf hf
  obtain ⟨g, rfl⟩ : ∃ g, f = g + 1 := ⟨f - 1, by omega⟩
  cases xs with
  | nil => simp [dumpElemsStr, parseElemsStart]
  | cons x t =>
    obtain ⟨c, u, heq, hws, hne93, _, _, _⟩ := dumpVal_head x
    have hwf1 : wfJ x = true ∧ wfL t = true := by
      simpa only [wfL, Bool.and_eq_true] using hwf
    have hlx : (dumpVal x).length < g := by
      simp only [dumpElemsStr, List.length_append] at hf
      omega
    have hlt : (dumpMoreElems t).length < g := by
      simp only [dumpElemsStr, List.length_append] at hf
      omega
    have hV := rtV x g (dumpMoreElems t ++ (93 :: r)) hwf1.1 (moreElems_head t r) hlx
    have hT := rtMoreE t g r hwf1.2 hlt
    show parseElemsStart (g + 1) ((dumpVal x ++ dumpMoreElems t) ++ (93 :: r)) = _
    rw [List.append_assoc, heq]
    simp only [List.cons_append, parseElemsStart]
    rw [if_neg hne93]
    rw [show (c :: (u ++ (dumpMoreElems t ++ (93 :: r)))) =
      dumpVal x ++ (dumpMoreElems t ++ (93 :: r)) by rw [heq]; simp]
    rw [hV]
    simp [hT]

/-- The array element loop. -/
theorem rtMoreE (xs : List PyJson) : ∀ (f : Nat) (r : PyStr), wfL xs = true →
    (dumpMoreElems xs).length < f →
    parseElemsTail f (dumpMoreElems xs ++ (93 :: r)) = some (xs, r) := by
  intro f r hwf hf
  obtain ⟨g, rfl⟩ : ∃ g, f = g + 1 := ⟨f - 1, by omega⟩
  cases xs with
  | nil => simp [dumpMoreElems, parseElemsTail, skipJsonWs, List.dropWhile_cons, jsonWs]
  | cons y t =>
    have hwf1 : wfJ y = true ∧ wfL t = true := by
      simpa only [wfL, Bool.and_eq_true] using hwf
    have hly : (dumpVal y).length < g := by
      simp only [dumpMoreElems, List.length_cons, List.length_append] at hf
      omega
    have hlt : (dumpMoreElems t).length < g := by
      simp only [dumpMoreElems, List.length_cons, List.length_append] at hf
      omega
    have hV := rtV y g (dumpMoreElems t ++ (93 :: r)) hwf1.1 (moreElems_head t r) hly
    have hT := rtMoreE t g r hwf1.2 hlt
    have hsv := skipJsonWs_dump y (dumpMoreElems t ++ (93 :: r))
    simp only [skipJsonWs] at hsv
    show parseElemsTail (g + 1) ((44 :: (dumpVal y ++ dumpMoreElems t)) ++ (93 :: r)) = _
    simp only [List.cons_append, List.append_assoc]
    simp [parseElemsTail, skipJsonWs, List.dropWhile_cons, jsonWs, hsv, hV, hT]

/-- The object member loop. -/
theorem rtPairs (kvs : List (PyStr × PyJson)) : ∀ (f : Nat) (r : PyStr),
    wfF kvs = true → (dumpMoreFields kvs).length < f →
    parseMembersTail f (dumpMoreFields kvs ++ (125 :: r)) = some (kvs, r) := by
  intro f r hwf hf
  obtain ⟨g, rfl⟩ : ∃ g, f = g + 1 := ⟨f - 1, by omega⟩
  cases kvs with
  | nil => simp [dumpMoreFields, parseMembersTail, skipJsonWs, List.dropWhile_cons, jsonWs]
  | cons p t =>
    obtain ⟨k, vv⟩ := p
    have hwf1 : wfJ vv = true ∧ wfF t = true := by
      simpa only [wfF, Bool.and_eq_true] using hwf
    rw [dumpMoreFields_cons_len k vv t] at hf
    obtain ⟨g2, rfl⟩ : ∃ g2, g = g2 + 1 := ⟨g - 1, by omega⟩
    have hkey : parseStringBody
        ((escBody k ++ (34 :: (58 :: (dumpVal vv ++ (dumpMoreFields t ++ (125 :: r)))))).length + 1)
        (escBody k ++ (34 :: (58 :: (dumpVal vv ++ (dumpMoreFields t ++ (125 :: r)))))) =
        some (k, 58 :: (dumpVal vv ++ (dumpMoreFields t ++ (125 :: r)))) := by
      apply parseStringBody_esc
      have := escBody_len k
      simp only [List.length_append, List.length_cons]
      omega
    have hV := rtV vv g2 (dumpMoreFields t ++ (125 :: r)) hwf1.1
      (moreFields_head t r) (by omega)
    have hT := rtPairs t (g2 + 1) r hwf1.2 (by omega)
    have hsv := skipJsonWs_dump vv (dumpMoreFields t ++ (125 :: r))
    simp only [List.length_append, List.length_cons] at hkey
    simp only [skipJsonWs] at hsv
    show parseMembersTail (g2 + 1 + 1)
      ((44 :: ((34 :: escBody k ++ 34 :: 58 :: dumpVal vv) ++ dumpMoreFields t)) ++ (125 :: r)) = _
    simp only [List.cons_append, List.append_assoc]
    rw [parseMembersTail]
    simp [parsePair, skipJsonWs, List.dropWhile_cons, jsonWs,
      hkey, hsv, hV, hT]

end

theorem dumpNatDigs_last (n : Nat) :
    ∃ c t, dumpNatDigs n = t ++ [c] ∧ isDigit c = true := by
  unfold dumpNatDigs
  by_cases h10 : n < 10
  · refine ⟨48 + n, [], by simp [natDigsAux, h10], ?_⟩
    simp only [isDigit, Bool.and_eq_true, decide_eq_true_eq]
    omega
  · refine ⟨48 + n % 10, natDigsAux n (n / 10), by simp [natDigsAux, h10], ?_⟩
    simp only [isDigit, Bool.and_eq_true, decide_eq_true_eq]
    omega

/-- The last character of a serialized value is never Python whitespace. -/
theorem dumpVal_last (v : PyJson) : ∃ c t, dumpVal v = t ++ [c] ∧ pyWs c = false := by
  cases v with
  | null => exact ⟨108, [110, 117, 108], rfl, by decide⟩
  | bool b =>
    cases b with
    | true => exact ⟨101, [116, 114, 117], rfl, by decide⟩
    | false => exact ⟨101, [102, 97, 108, 115], rfl, by decide⟩
  | str s =>
    refine ⟨34, 34 :: escBody s, ?_, by decide⟩
    simp [dumpVal]
  | arr xs =>
    refine ⟨93, 91 :: dumpElemsStr xs, ?_, by decide⟩
    simp [dumpVal]
  | obj kvs =>
    refine ⟨125, 123 :: dumpFieldsStr kvs, ?_, by decide⟩
    simp [dumpVal]
  | int n =>
    show ∃ c t, dumpInt n = t ++ [c] ∧ pyWs c = false
    obtain ⟨c, t, heq, hdig⟩ := dumpNatDigs_last n.natAbs
    have hb : 48 ≤ c ∧ c ≤ 57 := by
      simpa only [isDigit, Bool.and_eq_true, decide_eq_true_eq] using hdig
    have hpw : pyWs c = false := by
      simp only [pyWs, Bool.or_eq_false_iff, decide_eq_false_iff_not]
      omega
    unfold dumpInt
    by_cases hn : n < 0
    · rw [if_pos hn, heq]
      exact ⟨c, 45 :: t, by simp, hpw⟩
    · rw [if_neg hn, heq]
      exact ⟨c, t, rfl, hpw⟩

/-- The head of a serialized value is never Python whitespace. -/
theorem dumpVal_head_pyWs (v : PyJson) :
    ∃ c t, dumpVal v = c :: t ∧ pyWs c = false := by
  cases v with
  | null => exact ⟨110, _, rfl, by decide⟩
  | bool b =>
    cases b with
    | true => exact ⟨116, _, rfl, by decide⟩
    | false => exact ⟨102, _, rfl, by decide⟩
  | str s => exact ⟨34, _, rfl, by decide⟩
  | arr xs => exact ⟨91, _, rfl, by decide⟩
  | obj kvs => exact ⟨123, _, rfl, by decide⟩
  | int n =>
    show ∃ c t, dumpInt n = c :: t ∧ pyWs c = false
    unfold dumpInt
    by_cases hn : n < 0
    · rw [if_pos hn]
      exact ⟨45, _, rfl, by decide⟩
    · rw [if_neg hn]
      obtain ⟨c, t, heq, hdig⟩ := dumpNatDigs_head n.natAbs
      rw [heq]
      have hb : 48 ≤ c ∧ c ≤ 57 := by
        simpa only [isDigit, Bool.and_eq_true, decide_eq_true_eq] using hdig
      refine ⟨c, t, rfl, ?_⟩
      simp only [pyWs, Bool.or_eq_false_iff, decide_eq_false_iff_not]
      omega

/-- A string whose first and last characters are not whitespace strips to
itself. -/
theorem pyStrip_eq_of_ends (s : PyStr) (c1 : Nat) (t1 : PyStr) (c2 : Nat)
    (t2 : PyStr) (h1 : s = c1 :: t1) (h2 : s = t2 ++ [c2])
    (hw1 : pyWs c1 = false) (hw2 : pyWs c2 = false) : pyStrip s = s := by
  unfold pyStrip
  rw [h1, List.dropWhile_cons]
  simp only [hw1, Bool.false_eq_true, if_false]
  rw [← h1, h2]
  simp [List.reverse_append, List.dropWhile_cons, hw2]

theorem pyStrip_dump (v : PyJson) : pyStrip (dumpVal v) = dumpVal v := by
  obtain ⟨c1, t1, h1, hw1⟩ := dumpVal_head_pyWs v
  obtain ⟨c2, t2, h2, hw2⟩ := dumpVal_last v
  exact pyStrip_eq_of_ends _ c1 t1 c2 t2 h1 h2 hw1 hw2

/-- Parsing the canonical serialization of a well-formed value yields the
value back. -/
theorem loads_dumps (v : PyJson) (hwf : wfJ v = true) : loads (dumps v) = some v := by
  unfold loads dumps
  obtain ⟨c, t, heq, hjws, _⟩ := dumpVal_head v
  have hskip : skipJsonWs (dumpVal v) = dumpVal v := by
    rw [heq]
    simp [skipJsonWs, List.dropWhile_cons, hjws]
  rw [hskip]
  have hmain := rtV v ((dumpVal v).length + 1) [] hwf (by rfl) (by omega)
  rw [List.append_nil] at hmain
  rw [hmain]
  rfl

theorem objInsert_keys (acc : List (PyStr × PyJson)) (k : PyStr) (v : PyJson) :
    ∀ q ∈ objInsert acc k v, q.1 ∈ acc.map Prod.fst ∨ q.1 = k := by
  induction acc with
  | nil =>
    intro q hq
    simp only [objInsert, List.mem_singleton] at hq
    subst hq
    exact Or.inr rfl
  | cons p t ih =>
    obtain ⟨k0, v0⟩ := p
    intro q hq
    by_cases hk : k0 = k
    · simp only [objInsert, if_pos hk] at hq
      rcases List.mem_cons.mp hq with h | h
      · subst h; exact Or.inl (by simp)
      · refine Or.inl ?_
        simp only [List.map_cons, List.mem_cons]
        exact Or.inr (List.mem_map_of_mem _ h)
    · simp only [objInsert, if_neg hk] at hq
      rcases List.mem_cons.mp hq with h | h
      · subst h; exact Or.inl (by simp)
      · rcases ih q h with h2 | h2
        · exact Or.inl (by simp [h2])
        · exact Or.inr h2

theorem objInsert_values (P : PyJson → Prop) (acc : List (PyStr × PyJson))
    (k : PyStr) (v : PyJson) (ha : ∀ q ∈ acc, P q.2) (hv : P v) :
    ∀ q ∈ objInsert acc k v, P q.2 := by
  induction acc with
  | nil =>
    intro q hq
    simp only [objInsert, List.mem_singleton] at hq
    subst hq
    exact hv
  | cons p t ih =>
    obtain ⟨k0, v0⟩ := p
    intro q hq
    by_cases hk : k0 = k
    · simp only [objInsert, if_pos hk] at hq
      rcases List.mem_cons.mp hq with h | h
      · subst h; exact hv
      · exact ha q (List.mem_cons_of_mem _ h)
    · simp only [objInsert, if_neg hk] at hq
      rcases List.mem_cons.mp hq with h | h
      · subst h; exact ha (k0, v0) (by simp)
      · exact ih (fun q' hq' => ha q' (List.mem_cons_of_mem _ hq')) q h

theorem objInsert_nodup (acc : List (PyStr × PyJson)) (k : PyStr) (v : PyJson)
    (h : nodupKeys acc = true) : nodupKeys (objInsert acc k v) = true := by
  induction acc with
  | nil => simp [objInsert, nodupKeys]
  | cons p t ih =>
    obtain ⟨k0, v0⟩ := p
    simp only [nodupKeys, Bool.and_eq_true, List.all_eq_true] at h
    by_cases hk : k0 = k
    · simp only [objInsert, if_pos hk, nodupKeys, Bool.and_eq_true, List.all_eq_true]
      exact ⟨h.1, h.2⟩
    · simp only [objInsert, if_neg hk, nodupKeys, Bool.and_eq_true, List.all_eq_true]
      constructor
      · intro q hq
        rcases objInsert_keys t k v q hq with hmem | heq
        · obtain ⟨q', hq', hfst⟩ := List.mem_map.mp hmem
          have hthis := h.1 q' hq'
          rw [← hfst]
          exact hthis
        · rw [heq]
          simp only [Bool.not_eq_true', decide_eq_false_iff_not]
          exact fun hcontra => hk hcontra.symm
      · exact ih h.2

theorem objFromPairs_nodupKeys (pairs : List (PyStr × PyJson)) :
    nodupKeys (objFromPairs pairs) = true := by
  unfold objFromPairs
  suffices h : ∀ acc, nodupKeys acc = true →
      nodupKeys (pairs.foldl (fun a p => objInsert a p.1 p.2) acc) = true by
    exact h [] rfl
  induction pairs with
  | nil => intro acc hacc; simpa using hacc
  | cons p t ih =>
    intro acc hacc
    simp only [List.foldl_cons]
    exact ih _ (objInsert_nodup acc p.1 p.2 hacc)

theorem objFromPairs_values (P : PyJson → Prop) (pairs : List (PyStr × PyJson))
    (h : ∀ q ∈ pairs, P q.2) : ∀ q ∈ objFromPairs pairs, P q.2 := by
  unfold objFromPairs
  suffices hs : ∀ acc, (∀ q ∈ acc, P q.2) →
      ∀ q ∈ pairs.foldl (fun a p => objInsert a p.1 p.2) acc, P q.2 by
    exact hs [] (by intro q hq; simp at hq)
  induction pairs with
  | nil => intro acc hacc; simpa using hacc
  | cons p t ih =>
    intro acc hacc
    simp only [List.foldl_cons]
    exact ih (fun q hq => h q (List.mem_cons_of_mem _ hq))
      _ (objInsert_values P acc p.1 p.2 hacc (h p (by simp)))

theorem wfF_iff_all (l : List (PyStr × PyJson)) :
    wfF l = true ↔ ∀ q ∈ l, wfJ q.2 = true := by
  induction l with
  | nil => simp [wfF]
  | cons p t ih =>
    simp only [wfF, Bool.and_eq_true, ih, List.mem_cons]
    constructor
    · rintro ⟨h1, h2⟩ q (rfl | hq)
      · exact h1
      · exact h2 q hq
    · intro h
      exact ⟨h p (Or.inl rfl), fun q hq => h q (Or.inr hq)⟩

theorem wfL_iff_all (l : List PyJson) :
    wfL l = true ↔ ∀ q ∈ l, wfJ q = true := by
  induction l with
  | nil => simp [wfL]
  | cons x t ih =>
    simp only [wfL, Bool.and_eq_true, ih, List.mem_cons]
    constructor
    · rintro ⟨h1, h2⟩ q (rfl | hq)
      · exact h1
      · exact h2 q hq
    · intro h
      exact ⟨h x (Or.inl rfl), fun q hq => h q (Or.inr hq)⟩

/-- Every value the parser produces is well-formed: object keys are pairwise
distinct at every level. -/
theorem parse_wf (fuel : Nat) :
    (∀ s v r, parseValue fuel s = some (v, r) → wfJ v = true) ∧
    (∀ s v r, parseElemsStart fuel s = some (v, r) → wfJ v = true) ∧
    (∀ s l r, parseElemsTail fuel s = some (l, r) → wfL l = true) ∧
    (∀ s p r, parsePair fuel s = some (p, r) → wfJ p.2 = true) ∧
    (∀ s l r, parseMembersTail fuel s = some (l, r) → wfF l = true) ∧
    (∀ s v r, parseMembersStart fuel s = some (v, r) → wfJ v = true) := by
  induction fuel with
  | zero =>
    refine ⟨?_, ?_, ?_, ?_, ?_, ?_⟩ <;> intro s a r h <;>
      simp [parseValue, parseElemsStart, parseElemsTail, parsePair,
        parseMembersTail, parseMembersStart] at h
  | succ f ih =>
    obtain ⟨ihV, ihES, ihET, ihP, ihMT, ihMS⟩ := ih
    refine ⟨?_, ?_, ?_, ?_, ?_, ?_⟩
    · -- parseValue
      intro s v r h
      cases s with
      | nil => simp [parseValue] at h
      | cons c rest =>
        simp only [parseValue] at h
        split at h
        · exact ihMS _ _ _ h
        · split at h
          · exact ihES _ _ _ h
          · split at h
            · obtain ⟨p, hp, hpe⟩ := Option.map_eq_some'.mp h
              obtain ⟨rfl, rfl⟩ := Prod.mk.injEq .. ▸ (Prod.mk.inj hpe)
              rfl
            · split at h
              · obtain ⟨rfl, rfl⟩ := Prod.mk.inj (Option.some.inj h)
                rfl
              · split at h
                · obtain ⟨rfl, rfl⟩ := Prod.mk.inj (Option.some.inj h)
                  rfl
                · split at h
                  · obtain ⟨rfl, rfl⟩ := Prod.mk.inj (Option.some.inj h)
                    rfl
                  · split at h
                    · obtain ⟨p, hp, hpe⟩ := Option.map_eq_some'.mp h
                      obtain ⟨rfl, rfl⟩ := Prod.mk.inj hpe
                      rfl
                    · obtain ⟨p, hp, hpe⟩ := Option.map_eq_some'.mp h
                      obtain ⟨rfl, rfl⟩ := Prod.mk.inj hpe
                      rfl
    · -- parseElemsStart
      intro s v r h
      cases s with
      | nil => simp [parseElemsStart] at h
      | cons c rest =>
        simp only [parseElemsStart] at h
        split at h
        · obtain ⟨rfl, rfl⟩ := Prod.mk.inj (Option.some.inj h)
          rfl
        · obtain ⟨p, hp, hpe⟩ := Option.bind_eq_some.mp h
          obtain ⟨q, hq, hqe⟩ := Option.map_eq_some'.mp hpe
          obtain ⟨rfl, rfl⟩ := Prod.mk.inj hqe
          have h1 := ihV _ _ _ hp
          have h2 := ihET _ _ _ hq
          simp only [wfJ, wfL, Bool.and_eq_true]
          exact ⟨h1, h2⟩
    · -- parseElemsTail
      intro s l r h
      simp only [parseElemsTail] at h
      split at h
      · simp at h
      · split at h
        · obtain ⟨rfl, rfl⟩ := Prod.mk.inj (Option.some.inj h)
          rfl
        · split at h
          · obtain ⟨p, hp, hpe⟩ := Option.bind_eq_some.mp h
            obtain ⟨q, hq, hqe⟩ := Option.map_eq_some'.mp hpe
            obtain ⟨rfl, rfl⟩ := Prod.mk.inj hqe
            have h1 := ihV _ _ _ hp
            have h2 := ihET _ _ _ hq
            simp only [wfL, Bool.and_eq_true]
            exact ⟨h1, h2⟩
          · simp at h
    · -- parsePair
      intro s p r h
      simp only [parsePair] at h
      obtain ⟨k, hk, hke⟩ := Option.bind_eq_some.mp h
      split at hke
      · simp at hke
      · split at hke
        · obtain ⟨q, hq, hqe⟩ := Option.map_eq_some'.mp hke
          obtain ⟨rfl, rfl⟩ := Prod.mk.inj hqe
          exact ihV _ _ _ hq
        · simp at hke
    · -- parseMembersTail
      intro s l r h
      simp only [parseMembersTail] at h
      split at h
      · simp at h
      · split at h
        · obtain ⟨rfl, rfl⟩ := Prod.mk.inj (Option.some.inj h)
          rfl
        · split at h
          · split at h
            · simp at h
            · split at h
              · obtain ⟨p, hp, hpe⟩ := Option.bind_eq_some.mp h
                obtain ⟨q, hq, hqe⟩ := Option.map_eq_some'.mp hpe
                obtain ⟨rfl, rfl⟩ := Prod.mk.inj hqe
                have h1 := ihP _ _ _ hp
                have h2 := ihMT _ _ _ hq
                simp only [wfF, Bool.and_eq_true]
                exact ⟨h1, h2⟩
              · simp at h
          · simp at h
    · -- parseMembersStart
      intro s v r h
      cases s with
      | nil => simp [parseMembersStart] at h
      | cons c rest =>
        simp only [parseMembersStart] at h
        split at h
        · obtain ⟨rfl, rfl⟩ := Prod.mk.inj (Option.some.inj h)
          rfl
        · split at h
          · obtain ⟨p, hp, hpe⟩ := Option.bind_eq_some.mp h
            obtain ⟨q, hq, hqe⟩ := Option.map_eq_some'.mp hpe
            obtain ⟨rfl, rfl⟩ := Prod.mk.inj hqe
            have h1 := ihP _ _ _ hp
            have h2 := ihMT _ _ _ hq
            simp only [wfJ, Bool.and_eq_true]
            refine ⟨objFromPairs_nodupKeys _, ?_⟩
            rw [wfF_iff_all]
            apply objFromPairs_values (fun j => wfJ j = true)
            intro q2 hq2
            rcases List.mem_cons.mp hq2 with rfl | hq3
            · exact h1
            · exact (wfF_iff_all _).mp h2 q2 hq3
          · simp at h

theorem loads_wf (s : PyStr) (v : PyJson) (h : loads s = some v) : wfJ v = true := by
  unfold loads at h
  cases hp : parseValue (s.length + 1) (skipJsonWs s) with
  | none => rw [hp] at h; simp at h
  | some pv =>
    obtain ⟨v0, rest⟩ := pv
    rw [hp] at h
    split at h
    · rename_i v1 rest1 heq
      obtain ⟨rfl, rfl⟩ := Prod.mk.inj (Option.some.inj heq)
      split at h
      · obtain rfl := Option.some.inj h
        exact (parse_wf _).1 _ _ _ hp
      · simp at h
    · simp at h

theorem braceAttempt_wf (b : Bool) (t : PyStr) (v : PyJson)
    (h : braceAttempt b t = some v) : wfJ v = true := by
  simp only [braceAttempt] at h
  split at h
  · split at h
    · split at h
      · rename_i w hw
        obtain rfl := Option.some.inj h
        exact loads_wf _ _ hw
      · split at h
        · exact loads_wf _ _ h
        · simp at h
    · simp at h
  · simp at h

theorem parse_json_wf (text : PyStr) (v : PyJson)
    (h : parse_json text = (true, some v)) : wfJ v = true := by
  unfold parse_json at h
  split at h
  · rename_i w hw
    obtain ⟨-, hv⟩ := Prod.mk.inj h
    obtain rfl := Option.some.inj hv
    exact loads_wf _ _ hw
  · split at h
    · rename_i w hcb
      obtain ⟨-, hv⟩ := Prod.mk.inj h
      obtain rfl := Option.some.inj hv
      split at hcb
      · split at hcb
        · rename_i u hu
          obtain rfl := Option.some.inj hcb
          exact loads_wf _ _ hu
        · exact loads_wf _ _ hcb
      · simp at hcb
    · split at h
      · rename_i w hba
        obtain ⟨-, hv⟩ := Prod.mk.inj h
        obtain rfl := Option.some.inj hv
        exact braceAttempt_wf _ _ _ hba
      · split at h
        · rename_i w hba
          obtain ⟨-, hv⟩ := Prod.mk.inj h
          obtain rfl := Option.some.inj hv
          exact braceAttempt_wf _ _ _ hba
        · simp at h

/-- Does a parsed value carry the three required top-level keys? -/
def hasReportKeys (v : PyJson) : Bool :=
  match v with
  | PyJson.obj kvs =>
    (lookupKey kvs (pyStr "summary")).isSome &&
    (lookupKey kvs (pyStr "sections")).isSome &&
    (lookupKey kvs (pyStr "sources")).isSome
  | _ => false

/-- Shape of a fully-formed report draft: an object with a string summary,
sections each carrying string title and content, and a sources list. -/
def isSectionShaped (sec : PyJson) : Bool :=
  match sec with
  | PyJson.obj skvs =>
    (match lookupKey skvs (pyStr "title") with
     | some (PyJson.str _) => true
     | _ => false) &&
    (match lookupKey skvs (pyStr "content") with
     | some (PyJson.str _) => true
     | _ => false)
  | _ => false

def isFullDraft (v : PyJson) : Bool :=
  match v with
  | PyJson.obj kvs =>
    (match lookupKey kvs (pyStr "summary") with
     | some (PyJson.str _) => true
     | _ => false) &&
    (match lookupKey kvs (pyStr "sections") with
     | some (PyJson.arr secs) => secs.all isSectionShaped
     | _ => false) &&
    (match lookupKey kvs (pyStr "sources") with
     | some (PyJson.arr _) => true
     | _ => false)
  | _ => false

/-- parse_json either fails with no value or succeeds with a value. -/
theorem parse_json_cases (text : PyStr) :
    parse_json text = (false, none) ∨ ∃ v, parse_json text = (true, some v) := by
  unfold parse_json
  split
  · exact Or.inr ⟨_, rfl⟩
  · split
    · exact Or.inr ⟨_, rfl⟩
    · split
      · exact Or.inr ⟨_, rfl⟩
      · split
        · exact Or.inr ⟨_, rfl⟩
        · exact Or.inl rfl

/-- C1: for raw text that is valid JSON carrying the three required keys, the
Normalizer succeeds with exactly the strict parse of the stripped text, and
re-normalizing the canonical JSON serialization of the produced record yields
an equal record. -/
theorem c1_direct_parse_roundtrip (text : PyStr) (v : PyJson)
    (h1 : loads (pyStrip text) = some v) (h2 : hasReportKeys v = true) :
    parse_json text = (true, some v) ∧ parse_json (dumps v) = (true, some v) := by
  constructor
  · simp only [parse_json, h1]
  · have hwf : wfJ v = true := loads_wf _ _ h1
    have hld : loads (pyStrip (dumps v)) = some v := by
      unfold dumps
      rw [pyStrip_dump]
      exact loads_dumps v hwf
    simp only [parse_json, hld]

theorem c1_witness :
    parse_json ([123] ++ pyStr "\"summary\":\"s\",\"sections\":[],\"sources\":[]" ++ [125]) =
      (true, some (PyJson.obj
        [(pyStr "summary", PyJson.str (pyStr "s")),
         (pyStr "sections", PyJson.arr []),
         (pyStr "sources", PyJson.arr [])])) ∧
    parse_json (dumps (PyJson.obj
        [(pyStr "summary", PyJson.str (pyStr "s")),
         (pyStr "sections", PyJson.arr []),
         (pyStr "sources", PyJson.arr [])])) =
      (true, some (PyJson.obj
        [(pyStr "summary", PyJson.str (pyStr "s")),
         (pyStr "sections", PyJson.arr []),
         (pyStr "sources", PyJson.arr [])])) :=
  c1_direct_parse_roundtrip _ _ (by rfl) (by rfl)

/-- C2: the Normalizer is total — a false flag comes with no value — and the
caller substitutes the fallback structure, which is a fully-formed draft, so
a failure never escapes normalization. -/
theorem c2_total_fallback (text : PyStr) (h : (parse_json text).1 = false) :
    (parse_json text).2 = none ∧ normalizeResponse text = fallbackRecord text ∧
      isFullDraft (fallbackRecord text) = true := by
  rcases parse_json_cases text with hc | ⟨v, hc⟩
  · refine ⟨?_, ?_, ?_⟩
    · rw [hc]
    · simp only [normalizeResponse, hc]
    · rfl
  · rw [hc] at h
    simp at h

theorem c2_witness :
    (parse_json (pyStr "hello")).2 = none ∧
    normalizeResponse (pyStr "hello") = fallbackRecord (pyStr "hello") ∧
    isFullDraft (fallbackRecord (pyStr "hello")) = true :=
  c2_total_fallback (pyStr "hello") (by rfl)

/-- C10: parse_json does no schema validation — any strict parse, object or
not, is a success — and the report construction defaults a missing summary to
the empty string and missing sections and sources to empty lists. -/
theorem c10_no_schema_validation (text : PyStr) (v : PyJson)
    (kvs : List (PyStr × PyJson))
    (h1 : loads (pyStrip text) = some v)
    (h2 : lookupKey kvs (pyStr "summary") = none)
    (h3 : lookupKey kvs (pyStr "sections") = none)
    (h4 : lookupKey kvs (pyStr "sources") = none) :
    parse_json text = (true, some v) ∧
    reportFields (PyJson.obj kvs) =
      some (PyJson.str [], PyJson.arr [], PyJson.arr []) := by
  constructor
  · simp only [parse_json, h1]
  · simp [reportFields, objGet, h2, h3, h4]

theorem c10_witness :
    parse_json (pyStr "[1, 2]") = (true, some (PyJson.arr [PyJson.int 1, PyJson.int 2])) ∧
    reportFields (PyJson.obj [(pyStr "topic", PyJson.null)]) =
      some (PyJson.str [], PyJson.arr [], PyJson.arr []) :=
  c10_no_schema_validation _ _ _ (by rfl) (by rfl) (by rfl) (by rfl)

theorem firstIdxOf_not_mem (c : Nat) (s : PyStr) (h : c ∉ s) :
    firstIdxOf c s = none := by
  induction s with
  | nil => rfl
  | cons a t ih =>
    simp only [List.mem_cons, not_or] at h
    rw [firstIdxOf, if_neg (fun hc => h.1 hc.symm), ih h.2]
    rfl

theorem mem_fixEscapes (a : Nat) (s : PyStr) (h : a ∈ fixEscapes s) :
    a ∈ s ∨ a = 92 := by
  induction s with
  | nil => simp [fixEscapes] at h
  | cons c rest ih =>
    simp only [fixEscapes] at h
    split at h
    · rcases List.mem_cons.mp h with rfl | h2
      · exact Or.inr rfl
      · rcases List.mem_cons.mp h2 with rfl | h3
        · exact Or.inr rfl
        · rcases ih h3 with h4 | h4
          · exact Or.inl (List.mem_cons_of_mem _ h4)
          · exact Or.inr h4
    · rcases List.mem_cons.mp h with rfl | h2
      · exact Or.inl (by simp)
      · rcases ih h2 with h4 | h4
        · exact Or.inl (List.mem_cons_of_mem _ h4)
        · exact Or.inr h4

theorem isTripleHead_no_backtick (c : Nat) (rest : PyStr) (h : ¬(96 : Nat) = c) :
    isTripleHead (c :: rest) = false := by
  simp [isTripleHead, List.isPrefixOf, h]

theorem firstTripleIdx_no_backtick (s : PyStr) (h : (96 : Nat) ∉ s) :
    firstTripleIdx s = none := by
  induction s with
  | nil => rfl
  | cons c rest ih =>
    simp only [List.mem_cons, not_or] at h
    rw [firstTripleIdx, isTripleHead_no_backtick c rest h.1, ih h.2]
    rfl

theorem findOpenFence_no_backtick (s : PyStr) (h : (96 : Nat) ∉ s) :
    findOpenFence s = none := by
  induction s with
  | nil => rfl
  | cons c rest ih =>
    simp only [List.mem_cons, not_or] at h
    rw [findOpenFence, isTripleHead_no_backtick c rest h.1]
    simp only [Bool.false_and, Bool.false_eq_true, if_false]
    rw [ih h.2]
    rfl

theorem codeBlockInterior_no_backtick (text : PyStr) (h : (96 : Nat) ∉ text) :
    codeBlockInterior text = none := by
  unfold codeBlockInterior
  rw [findOpenFence_no_backtick text h]
  rfl

theorem braceAttempt_no_brace (b : Bool) (t : PyStr) (h : (123 : Nat) ∉ t) :
    braceAttempt b t = none := by
  simp [braceAttempt, firstIdxOf_not_mem 123 t h]

/-- C3 counterexample: the raw text 123 contains no brace characters yet the
Normalizer succeeds on it (a bare JSON number parses in the direct stage), so
a brace-free text does not always produce failure. -/
theorem c3_counterexample :
    (123 : Nat) ∉ pyStr "123" ∧ (125 : Nat) ∉ pyStr "123" ∧
    (parse_json (pyStr "123")).1 = true ∧
    parse_json (pyStr "123") = (true, some (PyJson.int 123)) :=
  ⟨by decide, by decide, by rfl, by rfl⟩

/-- C3 (amended): for raw text that does not itself strict-parse as JSON and
contains no brace and no backtick characters, every cascade stage fails, the
Normalizer returns failure, and the caller substitutes the fallback record,
whose summary states that parsing failed, whose second section is titled Raw
Response and holds the first 1000 characters of the raw text with a
truncation marker exactly when the text is longer, and whose sources list is
empty. -/
theorem c3_fallback_on_braceless (text : PyStr)
    (h1 : loads (pyStrip text) = none)
    (h2 : (123 : Nat) ∉ text) (h3 : (125 : Nat) ∉ text) (h4 : (96 : Nat) ∉ text) :
    parse_json text = (false, none) ∧
    normalizeResponse text = fallbackRecord text ∧
    fallbackRecord text = PyJson.obj
      [(pyStr "summary", PyJson.str (pyStr "Error: Could not parse research results")),
       (pyStr "sections", PyJson.arr
         [PyJson.obj
           [(pyStr "title", PyJson.str (pyStr "Error")),
            (pyStr "content", PyJson.str
              (pyStr "There was an error processing the research results. Please try again."))],
          PyJson.obj
           [(pyStr "title", PyJson.str (pyStr "Raw Response")),
            (pyStr "content", PyJson.str
              (text.take 1000 ++ (if 1000 < text.length then pyStr "..." else [])))]]),
       (pyStr "sources", PyJson.arr [])] ∧
    (1000 < text.length →
      text.take 1000 ++ (if 1000 < text.length then pyStr "..." else []) =
        text.take 1000 ++ pyStr "...") ∧
    (¬1000 < text.length →
      text.take 1000 ++ (if 1000 < text.length then pyStr "..." else []) = text) := by
  have hfix : (123 : Nat) ∉ fixEscapes text := by
    intro hmem
    rcases mem_fixEscapes 123 text hmem with hin | habs
    · exact h2 hin
    · omega
  have hpj : parse_json text = (false, none) := by
    unfold parse_json
    rw [h1, codeBlockInterior_no_backtick text h4,
      braceAttempt_no_brace true text h2, braceAttempt_no_brace false _ hfix]
  refine ⟨hpj, ?_, rfl, ?_, ?_⟩
  · simp only [normalizeResponse, hpj]
  · intro hlen
    rw [if_pos hlen]
  · intro hlen
    rw [if_neg hlen, List.append_nil, List.take_of_length_le (by omega)]

theorem c3_witness :
    parse_json (pyStr "hello") = (false, none) ∧
    normalizeResponse (pyStr "hello") = fallbackRecord (pyStr "hello") ∧
    fallbackRecord (pyStr "hello") = PyJson.obj
      [(pyStr "summary", PyJson.str (pyStr "Error: Could not parse research results")),
       (pyStr "sections", PyJson.arr
         [PyJson.obj
           [(pyStr "title", PyJson.str (pyStr "Error")),
            (pyStr "content", PyJson.str
              (pyStr "There was an error processing the research results. Please try again."))],
          PyJson.obj
           [(pyStr "title", PyJson.str (pyStr "Raw Response")),
            (pyStr "content", PyJson.str
              ((pyStr "hello").take 1000 ++
                (if 1000 < (pyStr "hello").length then pyStr "..." else [])))]]),
       (pyStr "sources", PyJson.arr [])] ∧
    (1000 < (pyStr "hello").length →
      (pyStr "hello").take 1000 ++
        (if 1000 < (pyStr "hello").length then pyStr "..." else []) =
        (pyStr "hello").take 1000 ++ pyStr "...") ∧
    (¬1000 < (pyStr "hello").length →
      (pyStr "hello").take 1000 ++
        (if 1000 < (pyStr "hello").length then pyStr "..." else []) = pyStr "hello") :=
  c3_fallback_on_braceless (pyStr "hello") (by rfl) (by decide) (by decide) (by decide)

/-- simple_sanitize from app/helpers/research.py: encode to ASCII with
replacement — every non-ASCII code point becomes a question mark. -/
def simple_sanitize (text : PyStr) : PyStr :=
  text.map (fun c => if c ≤ 127 then c else 63)

/-- Lazy capture up to the earliest occurrence of the closing delimiter, the
captured text not crossing a newline (regex dot semantics). -/
def splitLazy (d2 : PyStr) : PyStr → Option (PyStr × PyStr)
  | [] => none
  | c :: rest =>
    if d2.isPrefixOf (c :: rest) then some ([], (c :: rest).drop d2.length)
    else if c = 10 then none
    else (splitLazy d2 rest).map (fun p => (c :: p.1, p.2))

/-- One re.sub pass for a pattern of the form D1 (lazy capture) D2, replacing
each non-overlapping match with pre capture post, scanning left to right. -/
def subPairAux (d1 d2 pre post : PyStr) : Nat → PyStr → PyStr
  | 0, s => s
  | _, [] => []
  | fuel + 1, c :: rest =>
    if d1.isPrefixOf (c :: rest) then
      match splitLazy d2 ((c :: rest).drop d1.length) with
      | some p => pre ++ p.1 ++ post ++ subPairAux d1 d2 pre post fuel p.2
      | none => c :: subPairAux d1 d2 pre post fuel rest
    else c :: subPairAux d1 d2 pre post fuel rest

def subPair (d1 d2 pre post s : PyStr) : PyStr :=
  subPairAux d1 d2 pre post (s.length + 1) s

/-- One re.sub pass for a pattern delim [^delim]+ delim (the italic rules). -/
def subClassAux (delim : Nat) (pre post : PyStr) : Nat → PyStr → PyStr
  | 0, s => s
  | _, [] => []
  | fuel + 1, c :: rest =>
    if c = delim then
      let cap := rest.takeWhile (fun x => !(x = delim : Bool))
      let r := rest.drop cap.length
      if cap.isEmpty then c :: subClassAux delim pre post fuel rest
      else if r.headD (delim + 1) = delim then
        pre ++ cap ++ post ++ subClassAux delim pre post fuel (r.drop 1)
      else c :: subClassAux delim pre post fuel rest
    else c :: subClassAux delim pre post fuel rest

def subClass (delim : Nat) (pre post s : PyStr) : PyStr :=
  subClassAux delim pre post (s.length + 1) s

/-- The label of a link match: the lazy label may extend past early closing
brackets when no parenthesized url follows them (regex backtracking). -/
def tryLinkAux : Nat → PyStr → Option (PyStr × PyStr × PyStr)
  | 0, _ => none
  | fuel + 1, s =>
    match splitLazy [93, 40] s with
    | none => none
    | some p =>
      match splitLazy [41] p.2 with
      | none =>
        (tryLinkAux fuel p.2).map (fun q => (p.1 ++ [93, 40] ++ q.1, q.2.1, q.2.2))
      | some q => some (p.1, q.1, q.2)

/-- One re.sub pass for the link pattern, emitting a link tag. -/
def subLinkAux : Nat → PyStr → PyStr
  | 0, s => s
  | _, [] => []
  | fuel + 1, c :: rest =>
    if c = 91 then
      match tryLinkAux (rest.length + 1) rest with
      | some luu =>
        pyStr "<link href=" ++ [34] ++ luu.2.1 ++ [34] ++ [62] ++ luu.1 ++
          pyStr "</link>" ++ subLinkAux fuel luu.2.2
      | none => c :: subLinkAux fuel rest
    else c :: subLinkAux fuel rest

def subLink (s : PyStr) : PyStr := subLinkAux (s.length + 1) s

/-- process_markdown from generate_research_pdf: the fixed ordered set of
inline substitutions — bold, italic, link, code, superscript, subscript and
finally strikethrough. -/
def process_markdown (text : PyStr) : PyStr :=
  if text = [] then text
  else
    subPair (pyStr "~~") (pyStr "~~") (pyStr "<strike>") (pyStr "</strike>")
      (subPair (pyStr "~") (pyStr "~") (pyStr "<sub>") (pyStr "</sub>")
        (subPair (pyStr "^") (pyStr "^") (pyStr "<super>") (pyStr "</super>")
          (subPair (pyStr "`") (pyStr "`") (pyStr "<code>") (pyStr "</code>")
            (subLink
              (subClass 95 (pyStr "<i>") (pyStr "</i>")
                (subClass 42 (pyStr "<i>") (pyStr "</i>")
                  (subPair (pyStr "__") (pyStr "__") (pyStr "<b>") (pyStr "</b>")
                    (subPair (pyStr "**") (pyStr "**") (pyStr "<b>") (pyStr "</b>")
                      text))))))))

/-- The styles and flowables generate_research_pdf appends (spacer heights in
hundredths of an inch). -/
inductive StyleKind where
  | title
  | dateLine
  | normalStyle
  | listItem
  | numberedItem (num : PyStr)
  | h1
  | h2
  | h3
  | sectionTitle
  | blockquote
  | sourcesTitle
  | sourceBox
  | urlLine
  | sourceSnippet
deriving DecidableEq

inductive Flowable where
  | spacer (hundredthsInch : Nat)
  | pageBreak
  | hr
  | para (style : StyleKind) (text : PyStr)
  | table (data : List (List PyStr))
deriving DecidableEq

/-- Split on a single character (Python str.split with a one-char sep). -/
def splitChAux (d : Nat) : PyStr → PyStr → List PyStr
  | [], acc => [acc.reverse]
  | c :: rest, acc =>
    if c = d then acc.reverse :: splitChAux d rest []
    else splitChAux d rest (c :: acc)

def splitCh (d : Nat) (s : PyStr) : List PyStr := splitChAux d s []

def splitNL (s : PyStr) : List PyStr := splitCh 10 s

/-- Python str.split on a blank line (the two-character separator of two
newlines, non-overlapping, left to right). -/
def split2NLAux : PyStr → PyStr → List PyStr
  | [], acc => [acc.reverse]
  | 10 :: 10 :: rest, acc => acc.reverse :: split2NLAux rest []
  | c :: rest, acc => split2NLAux rest (c :: acc)

def split2NL (s : PyStr) : List PyStr := split2NLAux s []

def pyContains (c : Nat) (s : PyStr) : Bool := s.any (fun x => x = c)

def containsSub (needle : PyStr) : PyStr → Bool
  | [] => needle.isEmpty
  | c :: rest => needle.isPrefixOf (c :: rest) || containsSub needle rest

def joinNL (ls : List PyStr) : PyStr := List.intercalate [10] ls

/-- One line of an unordered-list block: a bullet paragraph for list lines, a
normal paragraph otherwise, blank lines skipped. -/
def bulletLine (line : PyStr) : List Flowable :=
  if pyStrip line = [] then []
  else if (pyStr "- ").isPrefixOf line || (pyStr "* ").isPrefixOf line then
    [Flowable.para StyleKind.listItem (pyStr "• " ++ process_markdown (line.drop 2))]
  else [Flowable.para StyleKind.normalStyle (process_markdown line)]

def bulletLines (lines : List PyStr) : List Flowable :=
  (lines.map bulletLine).flatten

/-- Does the block match the leading digits-dot pattern of an ordered list? -/
def numMatch (s : PyStr) : Bool :=
  let num := s.takeWhile isDigit
  !num.isEmpty && ((s.drop num.length).headD 0 = 46 : Bool)

/-- One line of an ordered-list block. -/
def numberedLine (line : PyStr) : List Flowable :=
  if pyStrip line = [] then []
  else
    let num := line.takeWhile isDigit
    if !num.isEmpty && ((line.drop num.length).headD 0 = 46 : Bool) then
      [Flowable.para (StyleKind.numberedItem num)
        (process_markdown (pyStrip (line.drop (num.length + 1))))]
    else [Flowable.para StyleKind.normalStyle (process_markdown line)]

def numberedLines (lines : List PyStr) : List Flowable :=
  (lines.map numberedLine).flatten

def stripQuoteLine (line : PyStr) : PyStr :=
  if (pyStr ">").isPrefixOf line then pyStrip (line.drop 1) else line

def tableCells (row : PyStr) : List PyStr :=
  ((splitCh 124 row).map pyStrip).filter (fun cell => !cell.isEmpty)

/-- The table attempt of the section renderer: non-empty stripped rows; with
at least three rows all containing a pipe, a header row, a discarded
separator row and filtered data rows become a table between spacers;
otherwise nothing is emitted (the paragraph branch of the chain is not
reached). -/
def tableBranch (para : PyStr) : List Flowable :=
  let rows := ((splitNL para).map pyStrip).filter (fun row => !row.isEmpty)
  if 3 ≤ rows.length ∧ rows.all (fun row => pyContains 124 row) = true then
    let header := tableCells (rows.headD [])
    let dataRows := ((rows.drop 2).map tableCells).filter (fun cells => !cells.isEmpty)
    [Flowable.spacer 10, Flowable.table (header :: dataRows), Flowable.spacer 20]
  else []

/-- The body of the per-block loop over a section content block in
generate_research_pdf: heading levels one to three, unordered list, ordered
list, blockquote, table candidate, default paragraph. -/
def renderSectionPara (para : PyStr) : List Flowable :=
  if pyStrip para = [] then []
  else if (pyStr "# ").isPrefixOf para then
    [Flowable.para StyleKind.h1 (process_markdown (para.drop 2)), Flowable.spacer 10]
  else if (pyStr "## ").isPrefixOf para then
    [Flowable.para StyleKind.h2 (process_markdown (para.drop 3)), Flowable.spacer 5]
  else if (pyStr "### ").isPrefixOf para then
    [Flowable.para StyleKind.h3 (process_markdown (para.drop 4)), Flowable.spacer 5]
  else if (pyStr "- ").isPrefixOf para || (pyStr "* ").isPrefixOf para then
    bulletLines (splitNL para) ++ [Flowable.spacer 5]
  else if numMatch para then
    numberedLines (splitNL para) ++ [Flowable.spacer 5]
  else if (pyStr ">").isPrefixOf para then
    [Flowable.para StyleKind.blockquote
      (process_markdown (joinNL ((splitNL para).map stripQuoteLine))),
     Flowable.spacer 10]
  else if pyContains 124 para &&
      (containsSub (pyStr "---") para || containsSub (pyStr "-+-") para) then
    tableBranch para
  else [Flowable.para StyleKind.normalStyle (process_markdown para)]

/-- The body of the per-block loop over the summary in generate_research_pdf:
only unordered-list blocks are special, everything else is a plain
paragraph. -/
def renderSummaryPara (para : PyStr) : List Flowable :=
  if pyStrip para = [] then []
  else if (pyStr "- ").isPrefixOf para || (pyStr "* ").isPrefixOf para then
    bulletLines (splitNL para)
  else [Flowable.para StyleKind.normalStyle (process_markdown para)]

def renderSummary (summary : PyStr) : List Flowable :=
  ((split2NL (simple_sanitize summary)).map renderSummaryPara).flatten

def renderSectionContent (content : PyStr) : List Flowable :=
  ((split2NL (simple_sanitize content)).map renderSectionPara).flatten

/-- A row of the research_reports table as the endpoints read and write it
(created_at abstracted to a number for ordering). -/
structure StoredReport where
  id : PyStr
  user_id : PyStr
  topic : PyStr
  summary : PyStr
  created_at : Nat
  deleted : Bool
deriving DecidableEq

inductive TaskStatus where
  | in_progress
  | processing
  | completed
  | failed
deriving DecidableEq

/-- An entry of active_research_tasks. -/
structure TaskEntry where
  user_id : PyStr
  topic : PyStr
  status : TaskStatus
deriving DecidableEq

inductive ApiResult (α : Type) where
  | ok (value : α)
  | badRequest
  | forbidden
  | notFound
deriving DecidableEq

def lookupTask (tasks : List (PyStr × TaskEntry)) (rid : PyStr) : Option TaskEntry :=
  match tasks with
  | [] => none
  | (k, e) :: rest => if k = rid then some e else lookupTask rest rid

/-- The select the read endpoints issue: filter by id, requesting user and
deleted = False. -/
def selectOwnedLive (db : List StoredReport) (rid uid : PyStr) : List StoredReport :=
  db.filter (fun r => (r.id = rid) && (r.user_id = uid) && !r.deleted)

/-- The update statement of delete_research_report: set deleted on every row
matching the id, with no other filter. -/
def updateDeletedById (db : List StoredReport) (rid : PyStr) : List StoredReport :=
  db.map (fun r => if r.id = rid then { r with deleted := true } else r)

/-- request_research: a fresh task entry in state in_progress. -/
def request_research (tasks : List (PyStr × TaskEntry)) (rid uid topic : PyStr) :
    List (PyStr × TaskEntry) :=
  (rid, ⟨uid, topic, TaskStatus.in_progress⟩) :: tasks

/-- get_research_status: active task first (owner check, 403), then the
owner-scoped live select (completed or 404). -/
def get_research_status (tasks : List (PyStr × TaskEntry)) (db : List StoredReport)
    (rid uid : PyStr) : ApiResult TaskStatus :=
  match lookupTask tasks rid with
  | none =>
    if (selectOwnedLive db rid uid).isEmpty then ApiResult.notFound
    else ApiResult.ok TaskStatus.completed
  | some task =>
    if task.user_id = uid then ApiResult.ok task.status else ApiResult.forbidden

def fetchOwnedLive (db : List StoredReport) (rid uid : PyStr) : ApiResult StoredReport :=
  match selectOwnedLive db rid uid with
  | [] => ApiResult.notFound
  | r :: _ => ApiResult.ok r

/-- get_research_report: 400 while a live task is not completed, then the
first row of the owner-scoped live select or 404. -/
def get_research_report (tasks : List (PyStr × TaskEntry)) (db : List StoredReport)
    (rid uid : PyStr) : ApiResult StoredReport :=
  match lookupTask tasks rid with
  | some task =>
    if task.status = TaskStatus.completed then fetchOwnedLive db rid uid
    else ApiResult.badRequest
  | none => fetchOwnedLive db rid uid

/-- get_research_pdf fetches the report row exactly like get_research_report
before rendering it. -/
def get_research_pdf (tasks : List (PyStr × TaskEntry)) (db : List StoredReport)
    (rid uid : PyStr) : ApiResult StoredReport :=
  match lookupTask tasks rid with
  | some task =>
    if task.status = TaskStatus.completed then fetchOwnedLive db rid uid
    else ApiResult.badRequest
  | none => fetchOwnedLive db rid uid

/-- delete_research_report: guard select scoped to owner and deleted = False
(404 leaves the table untouched), then the id-only update. -/
def delete_research_report (db : List StoredReport) (rid uid : PyStr) :
    ApiResult Unit × List StoredReport :=
  if (selectOwnedLive db rid uid).isEmpty then (ApiResult.notFound, db)
  else (ApiResult.ok (), updateDeletedById db rid)

/-- get_research_history: the user's rows with deleted = False, newest
first. -/
def get_research_history (db : List StoredReport) (uid : PyStr) : List StoredReport :=
  List.insertionSort (fun a b => b.created_at ≤ a.created_at)
    (db.filter (fun r => (r.user_id = uid) && !r.deleted))

/-- The two outcomes of the model call the background task makes, and of the
database insert; everything between them (parse_json, the fallback and the
report construction) is total. -/
structure ConductEnv where
  modelResult : Except PyStr PyStr
  insertOk : Bool

/-- conduct_research as a status writer: first statement of the try block
sets processing; the final statement of the try block sets completed; the
except handler sets failed.  The second component is the normalized record
the report row is built from, when one is persisted. -/
def conduct_research_run (env : ConductEnv) : List TaskStatus × Option PyJson :=
  match env.modelResult with
  | Except.error _ => ([TaskStatus.processing, TaskStatus.failed], none)
  | Except.ok raw =>
    let result := normalizeResponse raw
    if env.insertOk then ([TaskStatus.processing, TaskStatus.completed], some result)
    else ([TaskStatus.processing, TaskStatus.failed], none)

/-- The full status history of a task: the creation write of request_research
followed by the writes of the background run; nothing else writes the
status. -/
def taskStatusHistory (env : ConductEnv) : List TaskStatus :=
  TaskStatus.in_progress :: (conduct_research_run env).1

/-- A string headed by a non-whitespace character strips to something
non-empty. -/
theorem pyStrip_cons_ne_nil (c : Nat) (t : PyStr) (h : pyWs c = false) :
    pyStrip (c :: t) ≠ [] := by
  intro hcontra
  unfold pyStrip at hcontra
  rw [List.dropWhile_cons, h] at hcontra
  simp only [Bool.false_eq_true, if_false, List.reverse_eq_nil_iff,
    List.dropWhile_eq_nil_iff, List.mem_reverse] at hcontra
  have := hcontra c (List.mem_cons_self c t)
  rw [h] at this
  exact Bool.false_ne_true this

/-- C4: for a candidate table block with fewer than three non-empty rows the
renderer emits nothing at all: the block is dropped from the document, not
rendered as a plain paragraph as the spec requires. -/
theorem c4_malformed_table_dropped :
    renderSectionPara (pyStr "| a |\n|---|") = [] ∧
    renderSectionPara (pyStr "| a |\n|---|") ≠
      [Flowable.para StyleKind.normalStyle (process_markdown (pyStr "| a |\n|---|"))] :=
  ⟨rfl, by decide⟩

/-- C7: the single-tilde subscript pass runs before the strikethrough pass and
consumes both tilde pairs of a strikethrough run, so the strikethrough rule
never fires: the text renders as two empty subscript runs, not as a
strikethrough run. -/
theorem c7_strikethrough_consumed :
    process_markdown (pyStr "~~text~~") = pyStr "<sub></sub>text<sub></sub>" ∧
    process_markdown (pyStr "~~text~~") ≠ pyStr "<strike>text</strike>" :=
  ⟨rfl, by decide⟩

theorem pyContains_eq_false (c : Nat) (s : PyStr) (h : c ∉ s) :
    pyContains c s = false := by
  unfold pyContains
  rw [List.any_eq_false]
  intro x hx
  simp only [decide_eq_true_eq]
  intro hxc
  exact h (hxc ▸ hx)

/-- C8: blocks headed by one to three hash markers with a following space
render as headings of levels one to three, but a block headed by four or
more hash markers renders as a plain paragraph, not as a level-3 heading. -/
theorem c8_heading_levels (t : PyStr) (k : Nat) (h : (124 : Nat) ∉ t) :
    renderSectionPara (35 :: 32 :: t) =
      [Flowable.para StyleKind.h1 (process_markdown t), Flowable.spacer 10] ∧
    renderSectionPara (35 :: 35 :: 32 :: t) =
      [Flowable.para StyleKind.h2 (process_markdown t), Flowable.spacer 5] ∧
    renderSectionPara (35 :: 35 :: 35 :: 32 :: t) =
      [Flowable.para StyleKind.h3 (process_markdown t), Flowable.spacer 5] ∧
    renderSectionPara (35 :: 35 :: 35 :: 35 :: (List.replicate k 35 ++ 32 :: t)) =
      [Flowable.para StyleKind.normalStyle
        (process_markdown (35 :: 35 :: 35 :: 35 :: (List.replicate k 35 ++ 32 :: t)))] := by
  refine ⟨?_, ?_, ?_, ?_⟩
  · unfold renderSectionPara
    rw [if_neg (pyStrip_cons_ne_nil 35 (32 :: t) (by decide))]
    rw [show pyStr "# " = [35, 32] from rfl]
    simp [List.isPrefixOf]
  · unfold renderSectionPara
    rw [if_neg (pyStrip_cons_ne_nil 35 (35 :: 32 :: t) (by decide))]
    rw [show pyStr "# " = [35, 32] from rfl,
        show pyStr "## " = [35, 35, 32] from rfl]
    simp [List.isPrefixOf]
  · unfold renderSectionPara
    rw [if_neg (pyStrip_cons_ne_nil 35 (35 :: 35 :: 32 :: t) (by decide))]
    rw [show pyStr "# " = [35, 32] from rfl,
        show pyStr "## " = [35, 35, 32] from rfl,
        show pyStr "### " = [35, 35, 35, 32] from rfl]
    simp [List.isPrefixOf]
  · unfold renderSectionPara
    rw [if_neg (pyStrip_cons_ne_nil 35 (35 :: 35 :: 35 :: (List.replicate k 35 ++ 32 :: t))
      (by decide))]
    have hfalse : pyContains 124
        (35 :: 35 :: 35 :: 35 :: (List.replicate k 35 ++ 32 :: t)) = false := by
      apply pyContains_eq_false
      intro hc
      simp only [List.mem_cons, List.mem_append, List.mem_replicate] at hc
      rcases hc with h1 | h1 | h1 | h1 | (⟨_, h1⟩ | h1 | h1)
      · exact absurd h1 (by decide)
      · exact absurd h1 (by decide)
      · exact absurd h1 (by decide)
      · exact absurd h1 (by decide)
      · exact absurd h1 (by decide)
      · exact absurd h1 (by decide)
      · exact h h1
    rw [show pyStr "# " = [35, 32] from rfl,
        show pyStr "## " = [35, 35, 32] from rfl,
        show pyStr "### " = [35, 35, 35, 32] from rfl,
        show pyStr "- " = [45, 32] from rfl,
        show pyStr "* " = [42, 32] from rfl,
        show pyStr ">" = [62] from rfl,
        hfalse]
    simp [List.isPrefixOf, numMatch, List.takeWhile_cons, isDigit]

theorem c8_witness :
    (124 : Nat) ∉ pyStr "Deep" ∧
    renderSectionPara (35 :: 35 :: 35 :: 35 :: (List.replicate 0 35 ++ 32 :: pyStr "Deep")) =
      [Flowable.para StyleKind.normalStyle
        (process_markdown
          (35 :: 35 :: 35 :: 35 :: (List.replicate 0 35 ++ 32 :: pyStr "Deep")))] :=
  ⟨by decide, (c8_heading_levels (pyStr "Deep") 0 (by decide)).2.2.2⟩

/-- Summary paragraphs are only ever bullet list items or plain body
paragraphs. -/
def summaryFlowableShape : Flowable → Bool
  | Flowable.para StyleKind.listItem _ => true
  | Flowable.para StyleKind.normalStyle _ => true
  | _ => false

theorem bulletLine_shape (line : PyStr) :
    ∀ fl ∈ bulletLine line, summaryFlowableShape fl = true := by
  intro fl hfl
  unfold bulletLine at hfl
  split at hfl
  · simp at hfl
  · split at hfl
    · simp only [List.mem_singleton] at hfl
      subst hfl
      rfl
    · simp only [List.mem_singleton] at hfl
      subst hfl
      rfl

theorem bulletLines_shape (lines : List PyStr) :
    ∀ fl ∈ bulletLines lines, summaryFlowableShape fl = true := by
  intro fl hfl
  unfold bulletLines at hfl
  simp only [List.mem_flatten, List.mem_map] at hfl
  obtain ⟨l, ⟨line, hline, hl⟩, hfl⟩ := hfl
  exact bulletLine_shape line fl (hl ▸ hfl)

/-- C9: the summary is not subjected to the section block classifier: a
summary block opening with a hash-space heading marker or with a pipe is
rendered as a plain paragraph (the same text rendered as section content
gives a heading), and every summary flowable is a bullet item or plain
paragraph — never a heading, blockquote or table. -/
theorem c9_summary_blocks (t : PyStr) :
    renderSummaryPara (35 :: 32 :: t) =
      [Flowable.para StyleKind.normalStyle (process_markdown (35 :: 32 :: t))] ∧
    renderSummaryPara (124 :: t) =
      [Flowable.para StyleKind.normalStyle (process_markdown (124 :: t))] ∧
    (∀ s fl, fl ∈ renderSummary s → summaryFlowableShape fl = true) := by
  refine ⟨?_, ?_, ?_⟩
  · unfold renderSummaryPara
    rw [if_neg (pyStrip_cons_ne_nil 35 (32 :: t) (by decide))]
    rw [show pyStr "- " = [45, 32] from rfl,
        show pyStr "* " = [42, 32] from rfl]
    simp [List.isPrefixOf]
  · unfold renderSummaryPara
    rw [if_neg (pyStrip_cons_ne_nil 124 t (by decide))]
    rw [show pyStr "- " = [45, 32] from rfl,
        show pyStr "* " = [42, 32] from rfl]
    simp [List.isPrefixOf]
  · intro s fl hfl
    unfold renderSummary at hfl
    simp only [List.mem_flatten, List.mem_map] at hfl
    obtain ⟨l, ⟨para, hpara, hl⟩, hfl⟩ := hfl
    subst hl
    unfold renderSummaryPara at hfl
    split at hfl
    · simp at hfl
    · split at hfl
      · exact bulletLines_shape _ fl hfl
      · simp only [List.mem_singleton] at hfl
        subst hfl
        rfl

/-- C9 counterexample: the summary block of a hash-space heading renders as a
plain paragraph while the same text as section content renders as a level-1
heading, so summary and section content are not under the same block
classifier. -/
theorem c9_counterexample :
    renderSummary (pyStr "# Title") =
      [Flowable.para StyleKind.normalStyle (pyStr "# Title")] ∧
    renderSectionContent (pyStr "# Title") =
      [Flowable.para StyleKind.h1 (pyStr "Title"), Flowable.spacer 10] ∧
    renderSummary (pyStr "# Title") ≠ renderSectionContent (pyStr "# Title") :=
  ⟨rfl, rfl, by decide⟩

theorem c9_witness :
    renderSummaryPara (35 :: 32 :: pyStr "Title") =
      [Flowable.para StyleKind.normalStyle (process_markdown (35 :: 32 :: pyStr "Title"))] :=
  (c9_summary_blocks (pyStr "Title")).1

/-- A table state in which two owners hold rows sharing one report id; the
code never enforces id uniqueness across owners on insert. -/
def dbSharedId : List StoredReport :=
  [⟨pyStr "r1", pyStr "alice", pyStr "tA", pyStr "sA", 1, false⟩,
   ⟨pyStr "r1", pyStr "bob", pyStr "tB", pyStr "sB", 2, false⟩]

/-- C5 counterexample: with two live rows of different owners sharing a
report id, a delete issued by one owner flips the deleted flag on the other
owner's row as well, because the update statement filters by id only. -/
theorem c5_counterexample :
    pyStr "alice" ≠ pyStr "bob" ∧
    (dbSharedId.map StoredReport.deleted) = [false, false] ∧
    delete_research_report dbSharedId (pyStr "r1") (pyStr "bob") =
      (ApiResult.ok (),
       [⟨pyStr "r1", pyStr "alice", pyStr "tA", pyStr "sA", 1, true⟩,
        ⟨pyStr "r1", pyStr "bob", pyStr "tB", pyStr "sB", 2, true⟩]) :=
  ⟨by decide, rfl, by decide⟩

theorem fetchOwnedLive_ok (db : List StoredReport) (rid uid : PyStr) (r : StoredReport)
    (h : fetchOwnedLive db rid uid = ApiResult.ok r) :
    r.id = rid ∧ r.user_id = uid ∧ r.deleted = false := by
  unfold fetchOwnedLive at h
  split at h
  · simp at h
  · rename_i r0 rest heq
    have hr : r0 = r := by
      injection h
    subst hr
    have hmem : r0 ∈ selectOwnedLive db rid uid := by
      rw [heq]
      exact List.mem_cons_self r0 rest
    unfold selectOwnedLive at hmem
    rw [List.mem_filter] at hmem
    have hp := hmem.2
    simp only [Bool.and_eq_true, decide_eq_true_eq, Bool.not_eq_true'] at hp
    exact ⟨hp.1.1, hp.1.2, hp.2⟩

/-- C5: all reads are scoped to the requesting owner and to live rows, a
foreign or dead task id yields forbidden or not-found, and the delete guard
leaves the table untouched when the owner holds no live row with the id; the
original claim fails because the update statement of the delete filters by
id only, so an owner's delete also marks a same-id row of another owner
deleted (see the counterexample). -/
theorem c5_ownership_scoping :
    (∀ db uid r, r ∈ get_research_history db uid →
      r.user_id = uid ∧ r.deleted = false) ∧
    (∀ tasks db rid uid r, get_research_report tasks db rid uid = ApiResult.ok r →
      r.id = rid ∧ r.user_id = uid ∧ r.deleted = false) ∧
    (∀ tasks db rid uid r, get_research_pdf tasks db rid uid = ApiResult.ok r →
      r.id = rid ∧ r.user_id = uid ∧ r.deleted = false) ∧
    (∀ tasks db rid uid task, lookupTask tasks rid = some task → ¬task.user_id = uid →
      get_research_status tasks db rid uid = ApiResult.forbidden) ∧
    (∀ tasks db rid uid, lookupTask tasks rid = none →
      get_research_status tasks db rid uid = ApiResult.ok TaskStatus.completed →
      ∃ r, r ∈ db ∧ r.id = rid ∧ r.user_id = uid ∧ r.deleted = false) ∧
    (∀ db rid uid, (∀ r, r ∈ db → ¬(r.id = rid ∧ r.user_id = uid ∧ r.deleted = false)) →
      delete_research_report db rid uid = (ApiResult.notFound, db)) := by
  refine ⟨?_, ?_, ?_, ?_, ?_, ?_⟩
  · intro db uid r hmem
    unfold get_research_history at hmem
    rw [(List.perm_insertionSort _ _).mem_iff] at hmem
    rw [List.mem_filter] at hmem
    have hp := hmem.2
    simp only [Bool.and_eq_true, decide_eq_true_eq, Bool.not_eq_true'] at hp
    exact hp
  · intro tasks db rid uid r hok
    unfold get_research_report at hok
    split at hok
    · split at hok
      · exact fetchOwnedLive_ok db rid uid r hok
      · simp at hok
    · exact fetchOwnedLive_ok db rid uid r hok
  · intro tasks db rid uid r hok
    unfold get_research_pdf at hok
    split at hok
    · split at hok
      · exact fetchOwnedLive_ok db rid uid r hok
      · simp at hok
    · exact fetchOwnedLive_ok db rid uid r hok
  · intro tasks db rid uid task hlook hne
    unfold get_research_status
    rw [hlook]
    simp only [if_neg hne]
  · intro tasks db rid uid hlook hok
    unfold get_research_status at hok
    rw [hlook] at hok
    split at hok
    case h_2 task heq => exact Option.noConfusion heq
    split at hok
    · simp at hok
    · rename_i hne
      have hnonempty : selectOwnedLive db rid uid ≠ [] := by
        intro hnil
        exact hne (by rw [hnil]; rfl)
      match hsel : selectOwnedLive db rid uid with
      | [] => exact absurd hsel hnonempty
      | r :: rest =>
        have hmem : r ∈ selectOwnedLive db rid uid := by
          rw [hsel]
          exact List.mem_cons_self r rest
        unfold selectOwnedLive at hmem
        rw [List.mem_filter] at hmem
        have hp := hmem.2
        simp only [Bool.and_eq_true, decide_eq_true_eq, Bool.not_eq_true'] at hp
        exact ⟨r, hmem.1, hp.1.1, hp.1.2, hp.2⟩
  · intro db rid uid hnone
    unfold delete_research_report
    have hnil : selectOwnedLive db rid uid = [] := by
      unfold selectOwnedLive
      rw [List.filter_eq_nil_iff]
      intro r hr
      simp only [Bool.and_eq_true, decide_eq_true_eq, Bool.not_eq_true']
      intro hc
      exact hnone r hr ⟨hc.1.1, hc.1.2, hc.2⟩
    rw [hnil]
    rfl

theorem c5_witness :
    delete_research_report
        [⟨pyStr "r1", pyStr "alice", pyStr "tA", pyStr "sA", 1, false⟩]
        (pyStr "r1") (pyStr "bob") =
      (ApiResult.notFound,
       [⟨pyStr "r1", pyStr "alice", pyStr "tA", pyStr "sA", 1, false⟩]) :=
  c5_ownership_scoping.2.2.2.2.2
    [⟨pyStr "r1", pyStr "alice", pyStr "tA", pyStr "sA", 1, false⟩]
    (pyStr "r1") (pyStr "bob")
    (by decide)

/-- C6: a submitted task is created in state in_progress, and the full status
history the background run writes is in_progress, processing, then exactly
one terminal state among completed and failed, with no later write. -/
theorem c6_lifecycle :
    (∀ tasks rid uid topic,
      lookupTask (request_research tasks rid uid topic) rid =
        some ⟨uid, topic, TaskStatus.in_progress⟩) ∧
    (∀ env : ConductEnv,
      taskStatusHistory env =
          [TaskStatus.in_progress, TaskStatus.processing, TaskStatus.completed] ∨
      taskStatusHistory env =
          [TaskStatus.in_progress, TaskStatus.processing, TaskStatus.failed]) := by
  constructor
  · intro tasks rid uid topic
    unfold request_research lookupTask
    rw [if_pos rfl]
  · intro env
    unfold taskStatusHistory conduct_research_run
    obtain ⟨mr, ins⟩ := env
    cases mr
    · right
      rfl
    · cases ins
      · right
        rfl
      · left
        rfl

/-- C8 counterexample: a block of four hash markers and a space renders as a
plain body paragraph, not as a level-3 heading. -/
theorem c8_counterexample :
    renderSectionPara (pyStr "#### Deep") =
      [Flowable.para StyleKind.normalStyle (pyStr "#### Deep")] ∧
    renderSectionPara (pyStr "#### Deep") ≠
      [Flowable.para StyleKind.h3 (pyStr "Deep"), Flowable.spacer 5] :=
  ⟨rfl, by decide⟩
